import Mathlib

/-!
Verification development for the MMIO device manager of a firecracker-style
VMM (`src/vmm/src/device_manager/mmio.rs`), together with spec-modelled
embeddings of the collaborator components (`devices::Bus`, the virtio MMIO
transport, and the kernel command-line builder) whose sources are not part
of this repository snapshot.

Machine integers are modelled as `Nat` with explicit reductions modulo
`2 ^ 32` (u32) and `2 ^ 64` (u64) at the points where the source performs
wrapping arithmetic on those types.
-/

namespace MmioSpec

/-- Modulus of the Rust `u32` type. -/
def U32MOD : Nat := 2 ^ 32

/-- Modulus of the Rust `u64` type. -/
def U64MOD : Nat := 2 ^ 64

/-- Size of an MMIO device slot (`const MMIO_LEN: u64 = 0x1000`). -/
def MMIO_LEN : Nat := 0x1000

/-- Offset of the configuration space within a slot
(`const MMIO_CFG_SPACE_OFF: u64 = 0x100`). -/
def MMIO_CFG_SPACE_OFF : Nat := 0x100

/-- Modelled from the spec: the config-change interrupt cause bit
`VIRTIO_MMIO_INT_CONFIG` of the missing `devices::virtio` crate
(spec section "Bus-level wire contract"). -/
def VIRTIO_MMIO_INT_CONFIG : Nat := 0x2

/- ## Decimal and hexadecimal rendering

These model the Rust formatting directives `{}` (decimal) and `{:08x}`
(lowercase hexadecimal, zero-padded to a minimum of eight digits) used in
`format!("{}K@0x{:08x}:{}", MMIO_LEN / 1024, self.mmio_base, self.irq)`. -/

/-- Fuel-driven little-endian base-16 digit extraction (structural in the
fuel, so that it evaluates by kernel reduction). -/
def hexRevF : Nat → Nat → List Nat
  | 0, _ => []
  | fuel + 1, n => if n = 0 then [] else (n % 16) :: hexRevF fuel (n / 16)

/-- Little-endian base-16 digit list of a natural number (`0` gives `[]`). -/
def hexRev (n : Nat) : List Nat := hexRevF n n

/-- Fuel-driven little-endian base-10 digit extraction. -/
def decRevF : Nat → Nat → List Nat
  | 0, _ => []
  | fuel + 1, n => if n = 0 then [] else (n % 10) :: decRevF fuel (n / 10)

/-- Little-endian base-10 digit list of a natural number (`0` gives `[]`). -/
def decRev (n : Nat) : List Nat := decRevF n n

/-- Value of a little-endian base-16 digit list. -/
def hexVal : List Nat → Nat
  | [] => 0
  | d :: rest => d + 16 * hexVal rest

/-- Value of a little-endian base-10 digit list. -/
def decVal : List Nat → Nat
  | [] => 0
  | d :: rest => d + 10 * decVal rest

/-- Big-endian significant digits: `0` renders as the single digit `0`. -/
def hexSig (n : Nat) : List Nat := if n = 0 then [0] else (hexRev n).reverse

/-- Big-endian significant decimal digits: `0` renders as the single digit `0`. -/
def decSig (n : Nat) : List Nat := if n = 0 then [0] else (decRev n).reverse

/-- Digit-to-character map shared by the decimal and hexadecimal renderers
(`0`-`9` then `a`-`f`). -/
def digitChar (d : Nat) : Char :=
  if d < 10 then Char.ofNat (48 + d) else Char.ofNat (87 + d)

/-- Decimal rendering of a natural number, as produced by Rust `{}`. -/
def decStr (n : Nat) : String := String.mk ((decSig n).map digitChar)

/-- Hexadecimal digit list of `{:08x}`: zero-padded on the left to a minimum
width of eight digits. -/
def hexPad8 (n : Nat) : List Nat :=
  List.replicate (8 - (hexSig n).length) 0 ++ hexSig n

/-- Lowercase hexadecimal rendering zero-padded to a minimum of eight digits,
as produced by Rust `{:08x}`. -/
def hexMin8 (n : Nat) : String := String.mk ((hexPad8 n).map digitChar)

/-- Valuation of a big-endian hexadecimal digit list. -/
def hexBeVal (l : List Nat) : Nat := hexVal l.reverse

/-- Valuation of a big-endian decimal digit list. -/
def decBeVal (l : List Nat) : Nat := decVal l.reverse

/- ## Device model

The `devices` crate is not part of this repository snapshot; the virtio
device contract and the MMIO transport wrapper are modelled from the spec
(sections 4.C step 2, 6 "Virtio device contract" and "Bus-level wire
contract"). -/

/-- Modelled from the spec: the part of the virtio device contract the
manager consumes (`queue_max_sizes` determines the number of queue event
descriptors the MMIO wrapper owns, one per queue). -/
structure VirtioDevice where
  queue_max_sizes : List Nat
deriving DecidableEq, Repr

/-- Bus-level events observed by a device: write calls dispatched by
`BusDevice::write` and interrupt pulses. -/
inductive DevEvent where
  | write (offset : Nat) (data : List Nat)
  | intr (cause : Nat)
deriving DecidableEq, Repr

/-- Modelled from the spec: the MMIO transport wrapper around a virtio
device (`devices::virtio::MmioDevice`, not in this snapshot). `config` is
the device-visible configuration space as a byte store (newest binding
first), `events` the ordered log of bus-level writes and interrupt pulses,
and `poisoned` whether the device's mutual-exclusion lock is poisoned. -/
structure MmioDevice where
  device : VirtioDevice
  config : List (Nat × Nat)
  events : List DevEvent
  poisoned : Bool
deriving DecidableEq, Repr

/-- Construction of the MMIO transport wrapper (`MmioDevice::new`):
empty configuration space, no observed events, healthy lock. -/
def MmioDevice.new (device : VirtioDevice) : MmioDevice :=
  ⟨device, [], [], false⟩

/-- Store one byte of configuration space. -/
def setByte (st : List (Nat × Nat)) (o v : Nat) : List (Nat × Nat) := (o, v) :: st

/-- Read one byte of configuration space (unwritten bytes read as `0`). -/
def getByte (st : List (Nat × Nat)) (o : Nat) : Nat :=
  match st.find? (fun p => p.1 = o) with
  | some p => p.2
  | none => 0

/-- Store a run of bytes starting at an offset. -/
def setBytes (st : List (Nat × Nat)) (start : Nat) : List Nat → List (Nat × Nat)
  | [] => st
  | v :: vs => setBytes (setByte st start v) (start + 1) vs

/-- Read a run of bytes starting at an offset. -/
def getBytes (st : List (Nat × Nat)) (start n : Nat) : List Nat :=
  (List.range n).map (fun i => getByte st (start + i))

/-- Modelled from the spec: `BusDevice::write` on the MMIO transport.
Writes at offsets at or beyond `MMIO_CFG_SPACE_OFF` update the
device-visible configuration space; every write is logged. -/
def mmioWrite (d : MmioDevice) (offset : Nat) (data : List Nat) : MmioDevice :=
  { d with
    events := d.events ++ [DevEvent.write offset data]
    config :=
      if MMIO_CFG_SPACE_OFF ≤ offset then setBytes d.config (offset - MMIO_CFG_SPACE_OFF) data
      else d.config }

/-- Modelled from the spec: pulse the device interrupt with a cause bit. -/
def mmioInterrupt (d : MmioDevice) (cause : Nat) : MmioDevice :=
  { d with events := d.events ++ [DevEvent.intr cause] }

/-- Modelled from the spec: read of the device-visible configuration space
at a bus-level offset (`read_config(offset - 0x100, ...)`). -/
def mmioReadConfig (d : MmioDevice) (offset n : Nat) : List Nat :=
  getBytes d.config (offset - MMIO_CFG_SPACE_OFF) n

/-- Modelled from the spec: `devices::virtio::build_config_space` of the
missing block device — the virtio-block capacity field in 512-byte sectors,
encoded as eight little-endian bytes. -/
def build_config_space (new_size : Nat) : List Nat :=
  (List.range 8).map (fun i => new_size / 512 / 256 ^ i % 256)

/- ## Bus

Modelled from the spec (section 4.A): an ordered map from non-overlapping
address intervals to device handles. -/

/-- Errors of the missing `devices` crate bus (`devices::BusError`). -/
inductive BusError where
  | Overlap
deriving DecidableEq, Repr

/-- One bus entry: `(base_address, length, device_handle)`. -/
structure BusEntry where
  base : Nat
  len : Nat
  dev : MmioDevice
deriving DecidableEq, Repr

/-- Whether two half-open intervals `[b1, b1+l1)` and `[b2, b2+l2)` meet. -/
def rangesOverlap (b1 l1 b2 l2 : Nat) : Bool := b1 < b2 + l2 && b2 < b1 + l1

/-- Modelled from the spec: `Bus::insert`. Fails with `Overlap` when the
length is zero or some existing interval intersects the new one. -/
def busInsert (bus : List BusEntry) (dev : MmioDevice) (base len : Nat) :
    Except BusError (List BusEntry) :=
  if len = 0 then Except.error BusError.Overlap
  else if bus.any (fun e => rangesOverlap e.base e.len base len) then
    Except.error BusError.Overlap
  else Except.ok (bus ++ [⟨base, len, dev⟩])

/-- Modelled from the spec: `Bus::get_device` — the entry whose interval
contains the address, together with the intra-device offset. -/
def busGet (bus : List BusEntry) (addr : Nat) : Option (Nat × BusEntry) :=
  match bus.find? (fun e => decide (e.base ≤ addr ∧ addr < e.base + e.len)) with
  | some e => some (addr - e.base, e)
  | none => none

/-- Replace the device of the first entry whose interval contains the
address (the effect of mutating a found device through its shared handle). -/
def busSetFirst : List BusEntry → Nat → MmioDevice → List BusEntry
  | [], _, _ => []
  | e :: rest, addr, d =>
    if e.base ≤ addr ∧ addr < e.base + e.len then { e with dev := d } :: rest
    else e :: busSetFirst rest addr d

/- ## Command-line builder

Modelled from the spec (section 4.B). The `kernel` crate of this snapshot
declares `pub mod cmdline` but the module source is absent. The
duplicate-key rejection described in section 4.B is omitted: the
repository's own tests (`register_too_many_devices` in `mmio.rs`) require
repeated insertions of the key `virtio_mmio.device` into one builder to
succeed, once per registered virtio device, as do spec sections 4.B
"Ordering", 8 "Round-trip laws" and scenario 2. -/

/-- Errors of the command-line builder (`kernel_cmdline::Error`). -/
inductive CmdlineError where
  | HasEquals
  | HasSpace
  | InvalidValue
  | TooLarge
deriving DecidableEq, Repr

/-- Modelled from the spec: the command-line builder — a bounded token
stream; the rendered line is the tokens joined by single spaces. -/
structure Cmdline where
  capacity : Nat
  tokens : List String
deriving DecidableEq, Repr

/-- Fresh builder (`Cmdline::new(capacity)`). -/
def Cmdline.new (capacity : Nat) : Cmdline := ⟨capacity, []⟩

/-- Total byte length of the accumulated line, separators included. -/
def Cmdline.lineLen (c : Cmdline) : Nat :=
  match c.tokens with
  | [] => 0
  | ts => (ts.map String.length).sum + (ts.length - 1)

/-- Modelled from the spec: `Cmdline::insert(key, value)`. Rejects a key
containing `=` or whitespace and a value containing NUL or newline;
accepts when the running byte count plus `len(key) + 1 + len(value)` plus
an optional leading space stays within capacity. -/
def Cmdline.insert (c : Cmdline) (key value : String) : Except CmdlineError Cmdline :=
  if key.data.any (fun ch => ch == '=') then Except.error CmdlineError.HasEquals
  else if key.data.any Char.isWhitespace then Except.error CmdlineError.HasSpace
  else if value.data.any (fun ch => ch == Char.ofNat 0 || ch == Char.ofNat 10) then
    Except.error CmdlineError.InvalidValue
  else if c.capacity <
      c.lineLen + (if c.tokens.isEmpty then 0 else 1) + key.length + 1 + value.length then
    Except.error CmdlineError.TooLarge
  else Except.ok { c with tokens := c.tokens ++ [key ++ "=" ++ value] }

/- ## MMIO device manager (src/vmm/src/device_manager/mmio.rs) -/

/-- Device type tag (`arch::DeviceType`). -/
inductive DeviceType where
  | Virtio
  | Serial
  | RTC
deriving DecidableEq, Repr

/-- Errors of the MMIO device manager (`enum Error` in mmio.rs). The
payload strings stand for the display text of the wrapped `io::Error`. -/
inductive Error where
  | BusError (e : BusError)
  | CreateMmioDevice (msg : String)
  | Cmdline (e : CmdlineError)
  | EventFd (msg : String)
  | IrqsExhausted
  | RegisterIoEvent (msg : String)
  | RegisterIrqFd (msg : String)
  | UpdateFailed
deriving DecidableEq, Repr

/-- Display text of a bus error; the `devices` crate is absent, so only the
variant name is rendered. -/
def BusError.display : BusError → String
  | BusError.Overlap => "Overlap"

/-- Display text of a builder error (the builder module is absent; only the
variant name is rendered). -/
def CmdlineError.display : CmdlineError → String
  | CmdlineError.HasEquals => "HasEquals"
  | CmdlineError.HasSpace => "HasSpace"
  | CmdlineError.InvalidValue => "InvalidValue"
  | CmdlineError.TooLarge => "TooLarge"

/-- Display implementation of `Error` (`impl fmt::Display for Error`). -/
def Error.display : Error → String
  | Error.BusError e => "failed to perform bus operation: " ++ e.display
  | Error.CreateMmioDevice msg => "failed to create mmio device: " ++ msg
  | Error.Cmdline e => "unable to add device to kernel command line: " ++ e.display
  | Error.EventFd msg => "failed to create or clone event descriptor: " ++ msg
  | Error.IrqsExhausted => "no more IRQs are available"
  | Error.RegisterIoEvent msg => "failed to register IO event: " ++ msg
  | Error.RegisterIrqFd msg => "failed to register irqfd: " ++ msg
  | Error.UpdateFailed => "failed to update the mmio device"

/-- Information about an MMIO device registered at some address
(`struct MMIODeviceInfo`). -/
structure MMIODeviceInfo where
  addr : Nat
  irq : Nat
  len : Nat
  type_ : DeviceType
deriving DecidableEq, Repr

/-- State of the MMIO device manager (`struct MMIODeviceManager`). The
guest memory handle is an opaque token; `id_to_dev_info` models the
`HashMap<String, MMIODeviceInfo>` as an association list whose keys are
kept distinct by insertion. -/
structure MMIODeviceManager where
  bus : List BusEntry
  guest_mem : Nat
  mmio_base : Nat
  irq : Nat
  last_irq : Nat
  id_to_dev_info : List (String × MMIODeviceInfo)
deriving DecidableEq, Repr

/-- `MMIODeviceManager::new(guest_mem, mmio_base, irq_interval)`. -/
def MMIODeviceManager.new (guest_mem mmio_base : Nat) (irq_interval : Nat × Nat) :
    MMIODeviceManager :=
  { guest_mem := guest_mem
    mmio_base := mmio_base
    irq := irq_interval.1
    last_irq := irq_interval.2
    bus := []
    id_to_dev_info := [] }

/-- `HashMap::insert`: bind the key, replacing any previous binding. -/
def infoInsert (reg : List (String × MMIODeviceInfo)) (id : String) (info : MMIODeviceInfo) :
    List (String × MMIODeviceInfo) :=
  (id, info) :: reg.filter (fun p => ¬ p.1 = id)

/-- `HashMap::get` on the registry. -/
def infoGet (reg : List (String × MMIODeviceInfo)) (id : String) : Option MMIODeviceInfo :=
  match reg.find? (fun p => p.1 = id) with
  | some p => some p.2
  | none => none

/-- Outcomes of the fallible hypervisor-facing steps of one registration
(spec section 4.D): wrapper construction, one `register_ioevent` per queue
event descriptor, and `register_irqfd`. `some msg` makes the step fail with
an OS error whose display text is `msg`. -/
structure Env where
  create_err : Option String
  ioevent_errs : List (Option String)
  irqfd_err : Option String
deriving DecidableEq, Repr

/-- First failure among the first `n` ioevent registrations (missing list
entries are successes). -/
def firstErr : List (Option String) → Nat → Option String
  | _, 0 => none
  | [], _ + 1 => none
  | none :: rest, n + 1 => firstErr rest n
  | some msg :: _, _ + 1 => some msg

/-- Command-line value of the virtio discovery fragment:
`format!("{}K@0x{:08x}:{}", MMIO_LEN / 1024, self.mmio_base, self.irq)`. -/
def fragValue (mmio_base irq : Nat) : String :=
  decStr (MMIO_LEN / 1024) ++ "K@0x" ++ hexMin8 mmio_base ++ ":" ++ decStr irq

/-- Whole command-line token appended per virtio device. -/
def cmdTok (mmio_base irq : Nat) : String :=
  "virtio_mmio.device" ++ "=" ++ fragValue mmio_base irq

/-- `MMIODeviceManager::register_virtio_device` (x86_64). The `env`
argument decides the outcomes of the hypervisor-facing steps; the state
returned alongside the result is the manager and builder after the call,
also on the error paths. -/
def register_virtio_device (env : Env) (m : MMIODeviceManager) (cmdline : Cmdline)
    (device : VirtioDevice) (id : String) :
    Except Error Nat × MMIODeviceManager × Cmdline :=
  if m.irq > m.last_irq then (Except.error Error.IrqsExhausted, m, cmdline)
  else
    match env.create_err with
    | some msg => (Except.error (Error.CreateMmioDevice msg), m, cmdline)
    | none =>
      match firstErr env.ioevent_errs device.queue_max_sizes.length with
      | some msg => (Except.error (Error.RegisterIoEvent msg), m, cmdline)
      | none =>
        match env.irqfd_err with
        | some msg => (Except.error (Error.RegisterIrqFd msg), m, cmdline)
        | none =>
          match busInsert m.bus (MmioDevice.new device) m.mmio_base MMIO_LEN with
          | Except.error e => (Except.error (Error.BusError e), m, cmdline)
          | Except.ok bus1 =>
            let m1 := { m with bus := bus1 }
            match cmdline.insert "virtio_mmio.device" (fragValue m.mmio_base m.irq) with
            | Except.error e => (Except.error (Error.Cmdline e), m1, cmdline)
            | Except.ok c1 =>
              let ret := m.mmio_base
              let m2 := { m1 with
                id_to_dev_info := infoInsert m1.id_to_dev_info id
                  ⟨ret, m.irq, MMIO_LEN, DeviceType.Virtio⟩
                mmio_base := (m.mmio_base + MMIO_LEN) % U64MOD
                irq := (m.irq + 1) % U32MOD }
              (Except.ok ret, m2, c1)

/-- `MMIODeviceManager::update_drive(addr, new_size)`. The manager value
returned in the second component carries the device mutation performed
through the shared handle (`&self` in the source). -/
def update_drive (m : MMIODeviceManager) (addr new_size : Nat) :
    Except Error Unit × MMIODeviceManager :=
  match busGet m.bus addr with
  | some (_, e) =>
    if e.dev.poisoned then (Except.error Error.UpdateFailed, m)
    else
      let data := build_config_space new_size
      let d1 := mmioWrite e.dev MMIO_CFG_SPACE_OFF data
      let d2 := mmioInterrupt d1 VIRTIO_MMIO_INT_CONFIG
      (Except.ok (), { m with bus := busSetFirst m.bus addr d2 })
  | none => (Except.error Error.UpdateFailed, m)

/-- `MMIODeviceManager::get_address(id)`. -/
def get_address (m : MMIODeviceManager) (id : String) : Option Nat :=
  match infoGet m.id_to_dev_info id with
  | some dev_info => some dev_info.addr
  | none => none

/- ## Operation traces -/

/-- One control-plane operation on the manager. -/
inductive Op where
  | reg (env : Env) (device : VirtioDevice) (id : String)
  | upd (addr : Nat) (new_size : Nat)
deriving DecidableEq, Repr

/-- Observable outcome of one operation. -/
inductive Outcome where
  | regOk (addr : Nat)
  | regErr (e : Error)
  | updOk
  | updErr (e : Error)
deriving DecidableEq, Repr

/-- Run one operation on a manager/builder pair. -/
def runStep (s : MMIODeviceManager × Cmdline) (op : Op) :
    (MMIODeviceManager × Cmdline) × Outcome :=
  match op with
  | Op.reg env device id =>
    match register_virtio_device env s.1 s.2 device id with
    | (Except.ok a, m1, c1) => ((m1, c1), Outcome.regOk a)
    | (Except.error e, m1, c1) => ((m1, c1), Outcome.regErr e)
  | Op.upd addr new_size =>
    match update_drive s.1 addr new_size with
    | (Except.ok _, m1) => ((m1, s.2), Outcome.updOk)
    | (Except.error e, m1) => ((m1, s.2), Outcome.updErr e)

/-- Run a list of operations, collecting the outcomes in order. -/
def runTrace (s : MMIODeviceManager × Cmdline) :
    List Op → (MMIODeviceManager × Cmdline) × List Outcome
  | [] => (s, [])
  | op :: rest =>
    let (s1, o) := runStep s op
    let (s2, os) := runTrace s1 rest
    (s2, o :: os)

deriving instance DecidableEq for Except

/-- The id argument of a registration operation (`""` for updates). -/
def Op.regId : Op → String
  | Op.reg _ _ id => id
  | Op.upd _ _ => ""

/-- Expected registry records, in registration order, of a run of
successful registrations started with counters `mb` and `irq`. -/
def okInfos (mb irq : Nat) : List String → List (String × MMIODeviceInfo)
  | [] => []
  | id :: rest =>
    (id, ⟨mb, irq, MMIO_LEN, DeviceType.Virtio⟩) ::
      okInfos ((mb + MMIO_LEN) % U64MOD) ((irq + 1) % U32MOD) rest

/- ## Trace invariant

The geometric footprint of a bus slot, and the invariant tying the bus,
the registry and the command line together across arbitrary operation
sequences. -/

/-- Shapes of the bus slots: `(base, len)` per entry, in bus order. -/
def busShape (m : MMIODeviceManager) : List (Nat × Nat) :=
  m.bus.map (fun e => (e.base, e.len))

/-- Two `(base, len)` footprints occupy disjoint half-open intervals. -/
def pairDisj (p q : Nat × Nat) : Prop := p.1 + p.2 ≤ q.1 ∨ q.1 + q.2 ≤ p.1

/-- The invariant maintained by every manager operation, relative to the
configured base `b0`: the bus slots are pairwise disjoint `MMIO_LEN`-sized
windows aligned to `b0` modulo `MMIO_LEN`, the allocation counter keeps
that alignment, and the builder holds exactly one token per some list of
`(addr, irq)` pairs with pairwise-distinct addrs, each addr backed by a bus
slot, the registry records drawing their `(addr, irq)` from that list. -/
structure TraceInv (b0 : Nat) (s : MMIODeviceManager × Cmdline) : Prop where
  disj : (busShape s.1).Pairwise pairDisj
  lens : ∀ q ∈ busShape s.1, q.2 = MMIO_LEN ∧ q.1 % MMIO_LEN = b0 % MMIO_LEN
  cur : s.1.mmio_base % MMIO_LEN = b0 % MMIO_LEN
  toks : ∃ pairs : List (Nat × Nat),
    s.2.tokens = pairs.map (fun q => cmdTok q.1 q.2) ∧
    (∀ q ∈ pairs, q.1 ∈ (busShape s.1).map Prod.fst) ∧
    (pairs.map Prod.fst).Nodup ∧
    ∀ p ∈ s.1.id_to_dev_info, (p.2.addr, p.2.irq) ∈ pairs ∧ p.2.type_ = DeviceType.Virtio

/- ## Concrete fixtures for witnesses and counterexamples -/

/-- Hypervisor environment in which every registration step succeeds. -/
def envOk : Env := ⟨none, [], none⟩

/-- A one-queue virtio device. -/
def devOne : VirtioDevice := ⟨[64]⟩

/-- Fresh manager of spec scenario 1: base `0xd0000000`, IRQs `5..=23`. -/
def mFresh : MMIODeviceManager := MMIODeviceManager.new 0 0xd0000000 (5, 23)

/-- Fresh manager whose IRQ counter already exceeds `last_irq`. -/
def mExh : MMIODeviceManager := MMIODeviceManager.new 0 0xd0000000 (24, 23)

/-- Manager left behind by a registration on `mFresh` that failed at the
command-line step: the device slot is already installed on the bus. -/
def mCmdFail : MMIODeviceManager :=
  { mFresh with bus := [⟨0xd0000000, MMIO_LEN, MmioDevice.new devOne⟩] }

/-- Fresh manager whose address window sits at the top of the u64 space. -/
def mWrap : MMIODeviceManager := MMIODeviceManager.new 0 0xfffffffffffff000 (5, 23)

/-- Fresh manager whose IRQ interval sits at the top of the u32 range. -/
def mIrqTop : MMIODeviceManager :=
  MMIODeviceManager.new 0 0xd0000000 (4294967295, 4294967295)

/-- A device whose lock is poisoned. -/
def devPoisoned : MmioDevice := { MmioDevice.new devOne with poisoned := true }

/-- A manager holding one slot with a poisoned device. -/
def mPoisoned : MMIODeviceManager :=
  { mFresh with bus := [⟨0xd0000000, MMIO_LEN, devPoisoned⟩] }

theorem hexRevF_congr : ∀ (f1 f2 n : Nat), n ≤ f1 → n ≤ f2 → hexRevF f1 n = hexRevF f2 n := by
  intro f1
  induction f1 with
  | zero =>
    intro f2 n h1 h2
    have hn : n = 0 := by omega
    subst hn
    cases f2 <;> simp [hexRevF]
  | succ f ih =>
    intro f2 n h1 h2
    match f2 with
    | 0 =>
      have hn : n = 0 := by omega
      subst hn
      simp [hexRevF]
    | g + 1 =>
      by_cases hn : n = 0
      · simp [hexRevF, hn]
      · simp only [hexRevF, if_neg hn]
        have hdiv : n / 16 < n := Nat.div_lt_self (by omega) (by norm_num)
        rw [ih g (n / 16) (by omega) (by omega)]

theorem decRevF_congr : ∀ (f1 f2 n : Nat), n ≤ f1 → n ≤ f2 → decRevF f1 n = decRevF f2 n := by
  intro f1
  induction f1 with
  | zero =>
    intro f2 n h1 h2
    have hn : n = 0 := by omega
    subst hn
    cases f2 <;> simp [decRevF]
  | succ f ih =>
    intro f2 n h1 h2
    match f2 with
    | 0 =>
      have hn : n = 0 := by omega
      subst hn
      simp [decRevF]
    | g + 1 =>
      by_cases hn : n = 0
      · simp [decRevF, hn]
      · simp only [decRevF, if_neg hn]
        have hdiv : n / 10 < n := Nat.div_lt_self (by omega) (by norm_num)
        rw [ih g (n / 10) (by omega) (by omega)]

theorem hexRev_unfold (n : Nat) :
    hexRev n = if n = 0 then [] else (n % 16) :: hexRev (n / 16) := by
  by_cases hn : n = 0
  · subst hn; simp [hexRev, hexRevF]
  · obtain ⟨m, rfl⟩ : ∃ m, n = m + 1 := ⟨n - 1, by omega⟩
    rw [if_neg hn]
    show hexRevF (m + 1) (m + 1) = _
    simp only [hexRevF, if_neg hn]
    have hdiv : (m + 1) / 16 < m + 1 := Nat.div_lt_self (by omega) (by norm_num)
    rw [hexRevF_congr m ((m + 1) / 16) ((m + 1) / 16) (by omega) (by omega)]
    rfl

theorem decRev_unfold (n : Nat) :
    decRev n = if n = 0 then [] else (n % 10) :: decRev (n / 10) := by
  by_cases hn : n = 0
  · subst hn; simp [decRev, decRevF]
  · obtain ⟨m, rfl⟩ : ∃ m, n = m + 1 := ⟨n - 1, by omega⟩
    rw [if_neg hn]
    show decRevF (m + 1) (m + 1) = _
    simp only [decRevF, if_neg hn]
    have hdiv : (m + 1) / 10 < m + 1 := Nat.div_lt_self (by omega) (by norm_num)
    rw [decRevF_congr m ((m + 1) / 10) ((m + 1) / 10) (by omega) (by omega)]
    rfl

theorem hexVal_hexRev (n : Nat) : hexVal (hexRev n) = n := by
  induction n using Nat.strong_induction_on with
  | _ n ih =>
    rw [hexRev_unfold]
    by_cases hn : n = 0
    · simp [hn, hexVal]
    · rw [if_neg hn]
      show n % 16 + 16 * hexVal (hexRev (n / 16)) = n
      rw [ih (n / 16) (Nat.div_lt_self (by omega) (by norm_num))]
      exact Nat.mod_add_div n 16

theorem decVal_decRev (n : Nat) : decVal (decRev n) = n := by
  induction n using Nat.strong_induction_on with
  | _ n ih =>
    rw [decRev_unfold]
    by_cases hn : n = 0
    · simp [hn, decVal]
    · rw [if_neg hn]
      show n % 10 + 10 * decVal (decRev (n / 10)) = n
      rw [ih (n / 10) (Nat.div_lt_self (by omega) (by norm_num))]
      exact Nat.mod_add_div n 10

theorem hexRev_lt (n : Nat) : ∀ d ∈ hexRev n, d < 16 := by
  induction n using Nat.strong_induction_on with
  | _ n ih =>
    intro d hd
    rw [hexRev_unfold] at hd
    by_cases hn : n = 0
    · simp [hn] at hd
    · rw [if_neg hn] at hd
      rcases List.mem_cons.mp hd with h | h
      · exact h ▸ Nat.mod_lt _ (by norm_num)
      · exact ih (n / 16) (Nat.div_lt_self (by omega) (by norm_num)) d h

theorem decRev_lt (n : Nat) : ∀ d ∈ decRev n, d < 10 := by
  induction n using Nat.strong_induction_on with
  | _ n ih =>
    intro d hd
    rw [decRev_unfold] at hd
    by_cases hn : n = 0
    · simp [hn] at hd
    · rw [if_neg hn] at hd
      rcases List.mem_cons.mp hd with h | h
      · exact h ▸ Nat.mod_lt _ (by norm_num)
      · exact ih (n / 10) (Nat.div_lt_self (by omega) (by norm_num)) d h

theorem hexVal_append_zeros (xs : List Nat) (k : Nat) :
    hexVal (xs ++ List.replicate k 0) = hexVal xs := by
  induction xs with
  | nil =>
    simp only [List.nil_append]
    induction k with
    | zero => rfl
    | succ k ihk => simpa [List.replicate_succ, hexVal] using ihk
  | cons d rest ih => simp [hexVal, ih]

theorem hexBeVal_hexPad8 (n : Nat) : hexBeVal (hexPad8 n) = n := by
  unfold hexBeVal hexPad8 hexSig
  rw [List.reverse_append, List.reverse_replicate, hexVal_append_zeros]
  by_cases h : n = 0
  · simp [h, hexVal]
  · rw [if_neg h, List.reverse_reverse]
    exact hexVal_hexRev n

theorem decBeVal_decSig (n : Nat) : decBeVal (decSig n) = n := by
  unfold decBeVal decSig
  by_cases h : n = 0
  · simp [h, hexVal, decVal]
  · rw [if_neg h, List.reverse_reverse]
    exact decVal_decRev n

theorem digitChar_injOn :
    ∀ d1 < 16, ∀ d2 < 16, digitChar d1 = digitChar d2 → d1 = d2 := by decide

theorem digitChar_ne_colon : ∀ d < 16, digitChar d ≠ ':' := by decide

theorem hexPad8_lt (n : Nat) : ∀ d ∈ hexPad8 n, d < 16 := by
  intro d hd
  rcases List.mem_append.mp hd with h | h
  · have := List.eq_of_mem_replicate h
    omega
  · unfold hexSig at h
    by_cases h0 : n = 0
    · simp [h0] at h; omega
    · simp only [if_neg h0, List.mem_reverse] at h
      exact hexRev_lt n d h

theorem decSig_lt (n : Nat) : ∀ d ∈ decSig n, d < 10 := by
  intro d hd
  unfold decSig at hd
  by_cases h0 : n = 0
  · simp [h0] at hd; omega
  · simp only [if_neg h0, List.mem_reverse] at hd
    exact decRev_lt n d hd

/-- Mapping digit lists through `digitChar` is injective on valid digit lists. -/
theorem map_digitChar_inj {l1 l2 : List Nat} (h1 : ∀ d ∈ l1, d < 16) (h2 : ∀ d ∈ l2, d < 16)
    (h : l1.map digitChar = l2.map digitChar) : l1 = l2 := by
  induction l1 generalizing l2 with
  | nil => cases l2 <;> simp_all
  | cons d rest ih =>
    cases l2 with
    | nil => simp_all
    | cons d2 rest2 =>
      simp only [List.map_cons, List.cons.injEq] at h
      have hd : d = d2 :=
        digitChar_injOn d (h1 d (by simp)) d2 (h2 d2 (by simp)) h.1
      have hr : rest = rest2 :=
        ih (fun x hx => h1 x (by simp [hx])) (fun x hx => h2 x (by simp [hx])) h.2
      rw [hd, hr]

theorem hexMin8_inj {a b : Nat} (h : hexMin8 a = hexMin8 b) : a = b := by
  unfold hexMin8 at h
  have hlists : (hexPad8 a).map digitChar = (hexPad8 b).map digitChar :=
    congrArg String.data h
  have := map_digitChar_inj (hexPad8_lt a) (hexPad8_lt b) hlists
  calc a = hexBeVal (hexPad8 a) := (hexBeVal_hexPad8 a).symm
  _ = hexBeVal (hexPad8 b) := by rw [this]
  _ = b := hexBeVal_hexPad8 b

theorem decStr_inj {a b : Nat} (h : decStr a = decStr b) : a = b := by
  unfold decStr at h
  have hlists : (decSig a).map digitChar = (decSig b).map digitChar :=
    congrArg String.data h
  have := map_digitChar_inj (fun d hd => Nat.lt_of_lt_of_le (decSig_lt a d hd) (by norm_num))
    (fun d hd => Nat.lt_of_lt_of_le (decSig_lt b d hd) (by norm_num)) hlists
  calc a = decBeVal (decSig a) := (decBeVal_decSig a).symm
  _ = decBeVal (decSig b) := by rw [this]
  _ = b := decBeVal_decSig b

theorem hexMin8_ne_colon (n : Nat) : ∀ c ∈ (hexMin8 n).data, c ≠ ':' := by
  intro c hc
  unfold hexMin8 at hc
  simp only [String.mk] at hc
  rcases List.mem_map.mp hc with ⟨d, hd, rfl⟩
  exact digitChar_ne_colon d (hexPad8_lt n d hd)

/- ## Characterization of single calls -/

theorem busInsert_ok {bus : List BusEntry} {dev : MmioDevice} {base len : Nat}
    {bus1 : List BusEntry} (h : busInsert bus dev base len = Except.ok bus1) :
    bus1 = bus ++ [⟨base, len, dev⟩] ∧ 0 < len ∧
      ∀ e ∈ bus, rangesOverlap e.base e.len base len = false := by
  unfold busInsert at h
  split at h
  · exact absurd h (by simp)
  · split at h
    · exact absurd h (by simp)
    · refine ⟨by injection h with h1; exact h1.symm, by omega, ?_⟩
      intro e he
      rename_i hlen hany
      exact Bool.eq_false_iff.mpr ((List.any_eq_false.mp (Bool.of_not_eq_true hany)) e he)

theorem cmdline_insert_ok {c : Cmdline} {key value : String} {c1 : Cmdline}
    (h : c.insert key value = Except.ok c1) :
    c1.capacity = c.capacity ∧ c1.tokens = c.tokens ++ [key ++ "=" ++ value] := by
  unfold Cmdline.insert at h
  split at h
  · exact absurd h (by simp)
  · split at h
    · exact absurd h (by simp)
    · split at h
      · exact absurd h (by simp)
      · split at h <;> split at h <;>
          first
          | (injection h with h1; exact ⟨by rw [← h1], by rw [← h1]⟩)
          | exact absurd h (by simp)

/-- State and result of a successful `register_virtio_device` call. -/
theorem register_ok_state {env : Env} {m : MMIODeviceManager} {cmdline : Cmdline}
    {device : VirtioDevice} {id : String} {r : Nat} {m1 : MMIODeviceManager} {c1 : Cmdline}
    (h : register_virtio_device env m cmdline device id = (Except.ok r, m1, c1)) :
    r = m.mmio_base ∧
    m1.bus = m.bus ++ [⟨m.mmio_base, MMIO_LEN, MmioDevice.new device⟩] ∧
    m1.guest_mem = m.guest_mem ∧
    m1.mmio_base = (m.mmio_base + MMIO_LEN) % U64MOD ∧
    m1.irq = (m.irq + 1) % U32MOD ∧
    m1.last_irq = m.last_irq ∧
    m1.id_to_dev_info =
      infoInsert m.id_to_dev_info id ⟨m.mmio_base, m.irq, MMIO_LEN, DeviceType.Virtio⟩ ∧
    c1.capacity = cmdline.capacity ∧
    c1.tokens = cmdline.tokens ++ [cmdTok m.mmio_base m.irq] ∧
    m.irq ≤ m.last_irq ∧
    (∀ e ∈ m.bus, rangesOverlap e.base e.len m.mmio_base MMIO_LEN = false) := by
  unfold register_virtio_device at h
  split at h
  · exact absurd h (by simp)
  · rename_i hirq
    split at h
    · exact absurd h (by simp)
    · split at h
      · exact absurd h (by simp)
      · split at h
        · exact absurd h (by simp)
        · split at h
          · exact absurd h (by simp)
          · split at h
            · exact absurd h (by simp)
            · rename_i xb bus1 hbus xc c2 hcmd
              obtain ⟨hb1, _, hb3⟩ := busInsert_ok hbus
              obtain ⟨hc1, hc2⟩ := cmdline_insert_ok hcmd
              injection h with h1 h2
              injection h1 with h1
              injection h2 with h2 h3
              subst h1 h2 h3
              refine ⟨rfl, by simpa using hb1, rfl, rfl, rfl, rfl, rfl, hc1, ?_, by omega, hb3⟩
              rw [hc2]
              rfl

/-- State after a failed `register_virtio_device` call: the builder,
counters and registry are untouched; the bus is untouched except on the
`Cmdline` error path, where the freshly installed device remains. -/
theorem register_err_state {env : Env} {m : MMIODeviceManager} {cmdline : Cmdline}
    {device : VirtioDevice} {id : String} {e : Error} {m1 : MMIODeviceManager} {c1 : Cmdline}
    (h : register_virtio_device env m cmdline device id = (Except.error e, m1, c1)) :
    c1 = cmdline ∧
    m1.guest_mem = m.guest_mem ∧
    m1.mmio_base = m.mmio_base ∧
    m1.irq = m.irq ∧
    m1.last_irq = m.last_irq ∧
    m1.id_to_dev_info = m.id_to_dev_info ∧
    ((∃ ce, e = Error.Cmdline ce) →
      m1.bus = m.bus ++ [⟨m.mmio_base, MMIO_LEN, MmioDevice.new device⟩]) ∧
    ((∀ ce, e ≠ Error.Cmdline ce) → m1 = m) := by
  unfold register_virtio_device at h
  split at h
  · injection h with h1 h2
    injection h2 with h2 h3
    injection h1 with h1
    subst h1 h2 h3
    exact ⟨rfl, rfl, rfl, rfl, rfl, rfl, fun hx => absurd hx (by simp), fun _ => rfl⟩
  · split at h
    · injection h with h1 h2
      injection h2 with h2 h3
      injection h1 with h1
      subst h1 h2 h3
      exact ⟨rfl, rfl, rfl, rfl, rfl, rfl, fun hx => absurd hx (by simp), fun _ => rfl⟩
    · split at h
      · injection h with h1 h2
        injection h2 with h2 h3
        injection h1 with h1
        subst h1 h2 h3
        exact ⟨rfl, rfl, rfl, rfl, rfl, rfl, fun hx => absurd hx (by simp), fun _ => rfl⟩
      · split at h
        · injection h with h1 h2
          injection h2 with h2 h3
          injection h1 with h1
          subst h1 h2 h3
          exact ⟨rfl, rfl, rfl, rfl, rfl, rfl, fun hx => absurd hx (by simp), fun _ => rfl⟩
        · split at h
          · injection h with h1 h2
            injection h2 with h2 h3
            injection h1 with h1
            subst h1 h2 h3
            exact ⟨rfl, rfl, rfl, rfl, rfl, rfl, fun hx => absurd hx (by simp), fun _ => rfl⟩
          · rename_i bus1 hbus
            split at h
            · rename_i ce hcmd
              obtain ⟨hb1, _, _⟩ := busInsert_ok hbus
              injection h with h1 h2
              injection h2 with h2 h3
              injection h1 with h1
              subst h1 h2 h3
              refine ⟨rfl, rfl, rfl, rfl, rfl, rfl, fun _ => by simpa using hb1, fun hne => ?_⟩
              exact absurd rfl (hne ce)
            · exact absurd h (by simp)

/-- The IRQ check comes first: if the counter is past `last_irq`, the call
fails with `IrqsExhausted` and changes nothing, whatever the hypervisor,
bus, and builder would do. -/
theorem register_exhausted_of_lt {env : Env} {m : MMIODeviceManager} {cmdline : Cmdline}
    {device : VirtioDevice} {id : String} (h : m.last_irq < m.irq) :
    register_virtio_device env m cmdline device id =
      (Except.error Error.IrqsExhausted, m, cmdline) := by
  unfold register_virtio_device
  rw [if_pos h]

/-- Only the leading IRQ check produces `IrqsExhausted`. -/
theorem register_exhausted_lt {env : Env} {m : MMIODeviceManager} {cmdline : Cmdline}
    {device : VirtioDevice} {id : String} {m1 : MMIODeviceManager} {c1 : Cmdline}
    (h : register_virtio_device env m cmdline device id =
      (Except.error Error.IrqsExhausted, m1, c1)) :
    m.last_irq < m.irq := by
  unfold register_virtio_device at h
  split at h
  · assumption
  · split at h
    · simp at h
    · split at h
      · simp at h
      · split at h
        · simp at h
        · split at h
          · simp at h
          · split at h
            · simp at h
            · simp at h

/- ## Trace lemmas -/

theorem runTrace_cons (s : MMIODeviceManager × Cmdline) (op : Op) (rest : List Op) :
    runTrace s (op :: rest) =
      ((runTrace (runStep s op).1 rest).1,
        (runStep s op).2 :: (runTrace (runStep s op).1 rest).2) := by
  conv_lhs => rw [runTrace]

theorem runTrace_length (s : MMIODeviceManager × Cmdline) (ops : List Op) :
    (runTrace s ops).2.length = ops.length := by
  induction ops generalizing s with
  | nil => rfl
  | cons op rest ih =>
    rw [runTrace_cons]
    simp [ih]

theorem runTrace_append (s : MMIODeviceManager × Cmdline) (l1 l2 : List Op) :
    runTrace s (l1 ++ l2) =
      ((runTrace (runTrace s l1).1 l2).1,
        (runTrace s l1).2 ++ (runTrace (runTrace s l1).1 l2).2) := by
  induction l1 generalizing s with
  | nil => simp [runTrace]
  | cons op rest ih =>
    rw [List.cons_append, runTrace_cons, runTrace_cons, ih]
    simp

theorem runStep_reg_ok {s : MMIODeviceManager × Cmdline} {env : Env} {device : VirtioDevice}
    {id : String} {s1 : MMIODeviceManager × Cmdline} {x : Nat}
    (h : runStep s (Op.reg env device id) = (s1, Outcome.regOk x)) :
    register_virtio_device env s.1 s.2 device id = (Except.ok x, s1.1, s1.2) := by
  simp only [runStep] at h
  rcases hr : register_virtio_device env s.1 s.2 device id with ⟨r, m1, c1⟩
  rw [hr] at h
  cases r with
  | ok a =>
    simp only [Prod.mk.injEq] at h
    obtain ⟨h1, h2⟩ := h
    injection h2 with h2
    rw [← h1, h2]
  | error e => simp at h

theorem runStep_reg_err {s : MMIODeviceManager × Cmdline} {env : Env} {device : VirtioDevice}
    {id : String} {s1 : MMIODeviceManager × Cmdline} {e : Error}
    (h : runStep s (Op.reg env device id) = (s1, Outcome.regErr e)) :
    register_virtio_device env s.1 s.2 device id = (Except.error e, s1.1, s1.2) := by
  simp only [runStep] at h
  rcases hr : register_virtio_device env s.1 s.2 device id with ⟨r, m1, c1⟩
  rw [hr] at h
  cases r with
  | ok a => simp at h
  | error e2 =>
    simp only [Prod.mk.injEq] at h
    obtain ⟨h1, h2⟩ := h
    injection h2 with h2
    rw [← h1, h2]

theorem runStep_reg_shape (s : MMIODeviceManager × Cmdline) (env : Env)
    (device : VirtioDevice) (id : String) :
    (∃ x, (runStep s (Op.reg env device id)).2 = Outcome.regOk x) ∨
    (∃ e, (runStep s (Op.reg env device id)).2 = Outcome.regErr e) := by
  simp only [runStep]
  rcases hr : register_virtio_device env s.1 s.2 device id with ⟨r, m1, c1⟩
  cases r with
  | ok a => exact Or.inl ⟨a, rfl⟩
  | error e => exact Or.inr ⟨e, rfl⟩

theorem U64MOD_pos : 0 < U64MOD := by norm_num [U64MOD]

theorem U32MOD_pos : 0 < U32MOD := by norm_num [U32MOD]

/-- Counters and IRQ window after an all-successful run of registrations. -/
theorem runOk_counters : ∀ (ops : List Op) (s : MMIODeviceManager × Cmdline),
    (∀ op ∈ ops, ∃ env device id, op = Op.reg env device id) →
    (∀ o ∈ (runTrace s ops).2, ∃ x, o = Outcome.regOk x) →
    s.1.mmio_base < U64MOD → s.1.irq < U32MOD →
    (runTrace s ops).1.1.mmio_base = (s.1.mmio_base + ops.length * MMIO_LEN) % U64MOD ∧
    (runTrace s ops).1.1.irq = (s.1.irq + ops.length) % U32MOD ∧
    (runTrace s ops).1.1.last_irq = s.1.last_irq := by
  intro ops
  induction ops with
  | nil =>
    intro s _ _ hb hi
    refine ⟨?_, ?_, rfl⟩
    · show s.1.mmio_base = (s.1.mmio_base + 0 * MMIO_LEN) % U64MOD
      rw [Nat.zero_mul, Nat.add_zero, Nat.mod_eq_of_lt hb]
    · show s.1.irq = (s.1.irq + 0) % U32MOD
      rw [Nat.add_zero, Nat.mod_eq_of_lt hi]
  | cons op rest ih =>
    intro s hreg hok hb hi
    obtain ⟨env, device, id, rfl⟩ := hreg op (by simp)
    rw [runTrace_cons] at hok ⊢
    dsimp only at hok ⊢
    obtain ⟨x, hx⟩ :=
      hok ((runStep s (Op.reg env device id)).2) (List.mem_cons_self _ _)
    have hstepeq : runStep s (Op.reg env device id) =
        ((runStep s (Op.reg env device id)).1, Outcome.regOk x) := by
      rw [← hx]
    have hstep := register_ok_state (runStep_reg_ok hstepeq)
    obtain ⟨_, _, _, hmb, hirq, hlast, _, _, _, _, _⟩ := hstep
    have hb1 : (runStep s (Op.reg env device id)).1.1.mmio_base < U64MOD := by
      rw [hmb]; exact Nat.mod_lt _ U64MOD_pos
    have hi1 : (runStep s (Op.reg env device id)).1.1.irq < U32MOD := by
      rw [hirq]; exact Nat.mod_lt _ U32MOD_pos
    obtain ⟨ihmb, ihirq, ihlast⟩ := ih ((runStep s (Op.reg env device id)).1)
      (fun op2 h2 => hreg op2 (List.mem_cons_of_mem _ h2))
      (fun o2 h2 => hok o2 (List.mem_cons_of_mem _ h2))
      hb1 hi1
    simp only [List.length_cons]
    refine ⟨?_, ?_, by rw [ihlast, hlast]⟩
    · rw [ihmb, hmb, Nat.mod_add_mod]
      congr 1
      rw [Nat.add_mul, Nat.one_mul]
      omega
    · rw [ihirq, hirq, Nat.mod_add_mod]
      congr 1
      omega

theorem runStep_reg_of_err {s : MMIODeviceManager × Cmdline} {env : Env}
    {device : VirtioDevice} {id : String} {e : Error}
    (h : register_virtio_device env s.1 s.2 device id = (Except.error e, s.1, s.2)) :
    runStep s (Op.reg env device id) = (s, Outcome.regErr e) := by
  simp only [runStep, h]

/-- Registration sequences in which the only possible failure is
`IrqsExhausted` succeed step by step while the IRQ counter stays within
the window; the counter advances without wrapping. -/
theorem c4_aux : ∀ (ops : List Op) (s : MMIODeviceManager × Cmdline),
    (∀ op ∈ ops, ∃ env device id, op = Op.reg env device id) →
    (∀ o ∈ (runTrace s ops).2, ∀ e2, o = Outcome.regErr e2 → e2 = Error.IrqsExhausted) →
    s.1.irq + ops.length ≤ s.1.last_irq + 1 →
    s.1.last_irq + 1 < U32MOD →
    (∀ o ∈ (runTrace s ops).2, ∃ x, o = Outcome.regOk x) ∧
    (runTrace s ops).1.1.irq = s.1.irq + ops.length ∧
    (runTrace s ops).1.1.last_irq = s.1.last_irq := by
  intro ops
  induction ops with
  | nil =>
    intro s _ _ _ _
    refine ⟨?_, by simp [runTrace], rfl⟩
    intro o ho
    simp [runTrace] at ho
  | cons op rest ih =>
    intro s hreg herr hcount hbound
    obtain ⟨env, device, id, rfl⟩ := hreg op (by simp)
    rw [runTrace_cons] at herr ⊢
    dsimp only at herr ⊢
    simp only [List.length_cons] at hcount ⊢
    rcases runStep_reg_shape s env device id with ⟨x, hx⟩ | ⟨e2, he2⟩
    · have hstepeq : runStep s (Op.reg env device id) =
          ((runStep s (Op.reg env device id)).1, Outcome.regOk x) := by rw [← hx]
      obtain ⟨_, _, _, _, hirq, hlast, _, _, _, _, _⟩ :=
        register_ok_state (runStep_reg_ok hstepeq)
      have hirq2 : (runStep s (Op.reg env device id)).1.1.irq = s.1.irq + 1 := by
        rw [hirq, Nat.mod_eq_of_lt (by omega)]
      obtain ⟨ihok, ihirq, ihlast⟩ := ih ((runStep s (Op.reg env device id)).1)
        (fun op2 h2 => hreg op2 (List.mem_cons_of_mem _ h2))
        (fun o2 h2 e3 he3 => herr o2 (List.mem_cons_of_mem _ h2) e3 he3)
        (by rw [hirq2, hlast]; omega)
        (by rw [hlast]; exact hbound)
      refine ⟨?_, ?_, by rw [ihlast, hlast]⟩
      · intro o ho
        rcases List.mem_cons.mp ho with rfl | ho2
        · exact ⟨x, hx⟩
        · exact ihok o ho2
      · rw [ihirq, hirq2]
        omega
    · exfalso
      have hIrq : e2 = Error.IrqsExhausted :=
        herr _ (List.mem_cons_self _ _) e2 he2
      subst hIrq
      have hsq : runStep s (Op.reg env device id) =
          ((runStep s (Op.reg env device id)).1, Outcome.regErr Error.IrqsExhausted) := by
        rw [← he2]
      have := register_exhausted_lt (runStep_reg_err hsq)
      omega

/- ## Registry lemmas -/

theorem infoGet_insert_self (reg : List (String × MMIODeviceInfo)) (id : String)
    (info : MMIODeviceInfo) : infoGet (infoInsert reg id info) id = some info := by
  unfold infoGet infoInsert
  rw [List.find?_cons_of_pos _ (by simp)]

theorem infoGet_insert_ne (reg : List (String × MMIODeviceInfo)) (id id2 : String)
    (info : MMIODeviceInfo) (h : ¬ id2 = id) :
    infoGet (infoInsert reg id info) id2 = infoGet reg id2 := by
  unfold infoGet infoInsert
  rw [List.find?_cons_of_neg _ (by simpa using Ne.symm h)]
  induction reg with
  | nil => rfl
  | cons hd tl ih =>
    by_cases hhd : hd.1 = id2
    · have hne : ¬ hd.1 = id := by rw [hhd]; exact h
      rw [List.filter_cons_of_pos (by simpa using hne)]
      rw [List.find?_cons_of_pos _ (by simpa using hhd),
        List.find?_cons_of_pos _ (by simpa using hhd)]
    · by_cases hid : hd.1 = id
      · rw [List.filter_cons_of_neg (by simpa using hid)]
        rw [List.find?_cons_of_neg _ (by simpa using hhd)]
        exact ih
      · rw [List.filter_cons_of_pos (by simpa using hid)]
        rw [List.find?_cons_of_neg _ (by simpa using hhd),
          List.find?_cons_of_neg _ (by simpa using hhd)]
        exact ih

theorem infoInsert_no_filter {reg : List (String × MMIODeviceInfo)} {id : String}
    (info : MMIODeviceInfo) (h : ∀ p ∈ reg, ¬ p.1 = id) :
    infoInsert reg id info = (id, info) :: reg := by
  unfold infoInsert
  rw [List.filter_eq_self.mpr (fun p hp => by simpa using h p hp)]

theorem infoGet_eq_none {l : List (String × MMIODeviceInfo)} {id : String}
    (h : ∀ p ∈ l, ¬ p.1 = id) : infoGet l id = none := by
  unfold infoGet
  rw [List.find?_eq_none.mpr (fun p hp => by simpa using h p hp)]

theorem infoGet_mem {l : List (String × MMIODeviceInfo)} {id : String} {info : MMIODeviceInfo}
    (h : infoGet l id = some info) : (id, info) ∈ l := by
  unfold infoGet at h
  rcases hf : l.find? (fun p => p.1 = id) with _ | p
  · rw [hf] at h; cases h
  · rw [hf] at h
    injection h with h
    have hmem := List.mem_of_find?_eq_some hf
    have hkey : p.1 = id := by simpa using List.find?_some hf
    have : p = (id, info) := by
      rcases p with ⟨k, v⟩
      simp only at hkey h
      rw [hkey, h]
    exact this ▸ hmem

theorem infoGet_of_mem {l : List (String × MMIODeviceInfo)} {id : String}
    {info : MMIODeviceInfo} (hnd : (l.map Prod.fst).Nodup) (h : (id, info) ∈ l) :
    infoGet l id = some info := by
  induction l with
  | nil => cases h
  | cons hd tl ih =>
    rcases List.mem_cons.mp h with rfl | h2
    · unfold infoGet
      rw [List.find?_cons_of_pos _ (by simp)]
    · have hne : ¬ hd.1 = id := by
        intro hcontra
        have : id ∈ tl.map Prod.fst := List.mem_map.mpr ⟨(id, info), h2, rfl⟩
        rw [List.map_cons] at hnd
        exact (List.nodup_cons.mp hnd).1 (hcontra ▸ this)
      have := ih (by rw [List.map_cons] at hnd; exact (List.nodup_cons.mp hnd).2) h2
      unfold infoGet at this ⊢
      rw [List.find?_cons_of_neg _ (by simpa using hne)]
      exact this

/- ## Characterization of all-successful registration runs -/

theorem okInfos_keys (mb irq : Nat) (ids : List String) :
    (okInfos mb irq ids).map Prod.fst = ids := by
  induction ids generalizing mb irq with
  | nil => rfl
  | cons id rest ih => simp [okInfos, ih]

theorem okInfos_addrs (mb irq : Nat) (ids : List String) (hmb : mb < U64MOD) :
    (okInfos mb irq ids).map (fun p => p.2.addr) =
      (List.range ids.length).map (fun k => (mb + k * MMIO_LEN) % U64MOD) := by
  induction ids generalizing mb irq with
  | nil => rfl
  | cons id rest ih =>
    simp only [okInfos, List.map_cons, List.length_cons, List.range_succ_eq_map,
      List.map_map]
    congr 1
    · simp [Nat.mod_eq_of_lt hmb]
    rw [ih ((mb + MMIO_LEN) % U64MOD) ((irq + 1) % U32MOD) (Nat.mod_lt _ U64MOD_pos)]
    apply List.map_congr_left
    intro k _
    simp only [Function.comp]
    rw [Nat.mod_add_mod]
    congr 1
    rw [Nat.succ_eq_add_one, Nat.add_mul, Nat.one_mul]
    ring

theorem okInfos_irqs (mb irq : Nat) (ids : List String) (hirq : irq < U32MOD) :
    (okInfos mb irq ids).map (fun p => p.2.irq) =
      (List.range ids.length).map (fun k => (irq + k) % U32MOD) := by
  induction ids generalizing mb irq with
  | nil => rfl
  | cons id rest ih =>
    simp only [okInfos, List.map_cons, List.length_cons, List.range_succ_eq_map,
      List.map_map]
    congr 1
    · simp [Nat.mod_eq_of_lt hirq]
    rw [ih ((mb + MMIO_LEN) % U64MOD) ((irq + 1) % U32MOD) (Nat.mod_lt _ U32MOD_pos)]
    apply List.map_congr_left
    intro k _
    simp only [Function.comp]
    rw [Nat.mod_add_mod]
    congr 1
    omega

theorem okInfos_length (mb irq : Nat) (ids : List String) :
    (okInfos mb irq ids).length = ids.length := by
  induction ids generalizing mb irq with
  | nil => rfl
  | cons id rest ih => simp [okInfos, ih]

theorem addr_seq_inj {mb j k : Nat} (hjk : j ≤ k) (hd : k - j < U32MOD)
    (h : (mb + j * MMIO_LEN) % U64MOD = (mb + k * MMIO_LEN) % U64MOD) : j = k := by
  have hdvd : U64MOD ∣ (mb + k * MMIO_LEN) - (mb + j * MMIO_LEN) :=
    (Nat.modEq_iff_dvd' (by exact Nat.add_le_add_left (Nat.mul_le_mul_right _ hjk) mb)).mp h
  have hsub : (mb + k * MMIO_LEN) - (mb + j * MMIO_LEN) = (k - j) * MMIO_LEN := by
    rw [Nat.sub_mul]
    omega
  rw [hsub] at hdvd
  have hlt : (k - j) * MMIO_LEN < U64MOD := by
    calc (k - j) * MMIO_LEN < U32MOD * MMIO_LEN :=
      Nat.mul_lt_mul_of_lt_of_le hd (le_refl _) (by norm_num [MMIO_LEN])
    _ < U64MOD := by norm_num [U32MOD, U64MOD, MMIO_LEN]
  have := Nat.eq_zero_of_dvd_of_lt hdvd hlt
  have hL : 0 < MMIO_LEN := by norm_num [MMIO_LEN]
  have : k - j = 0 := by
    by_contra hne
    have : 0 < (k - j) * MMIO_LEN := Nat.mul_pos (Nat.pos_of_ne_zero hne) hL
    omega
  omega

theorem irq_seq_inj {a j k : Nat} (hjk : j ≤ k) (hd : k - j < U32MOD)
    (h : (a + j) % U32MOD = (a + k) % U32MOD) : j = k := by
  have hdvd : U32MOD ∣ (a + k) - (a + j) :=
    (Nat.modEq_iff_dvd' (by omega)).mp h
  have hsub : (a + k) - (a + j) = k - j := by omega
  rw [hsub] at hdvd
  have := Nat.eq_zero_of_dvd_of_lt hdvd hd
  omega

theorem addr_range_nodup (mb n : Nat) (hn : n ≤ U32MOD) :
    ((List.range n).map (fun k => (mb + k * MMIO_LEN) % U64MOD)).Nodup := by
  refine List.Nodup.map_on ?_ (List.nodup_range n)
  intro j hj k hk h
  simp only [List.mem_range] at hj hk
  rcases Nat.le_total j k with hle | hle
  · exact addr_seq_inj hle (by omega) h
  · exact (addr_seq_inj hle (by omega) h.symm).symm

theorem irq_range_nodup (a n : Nat) (hn : n ≤ U32MOD) :
    ((List.range n).map (fun k => (a + k) % U32MOD)).Nodup := by
  refine List.Nodup.map_on ?_ (List.nodup_range n)
  intro j hj k hk h
  simp only [List.mem_range] at hj hk
  rcases Nat.le_total j k with hle | hle
  · exact irq_seq_inj hle (by omega) h
  · exact (irq_seq_inj hle (by omega) h.symm).symm

theorem okInfos_key_at (mb irq : Nat) (ids : List String) (k : Nat)
    (hk : k < (okInfos mb irq ids).length) (hk2 : k < ids.length) :
    ((okInfos mb irq ids).get ⟨k, hk⟩).1 = ids.get ⟨k, hk2⟩ := by
  have h1 : ((okInfos mb irq ids).map Prod.fst)[k]? =
      ((okInfos mb irq ids)[k]?).map Prod.fst := List.getElem?_map _ _ _
  rw [okInfos_keys, List.getElem?_eq_getElem hk2, List.getElem?_eq_getElem hk] at h1
  exact (Option.some.inj h1).symm

/-- Full characterization of an all-successful run of registrations with
pairwise-distinct ids that are also fresh for the starting registry:
the final registry, the bus bases, and the outcome list. -/
theorem runOk_full : ∀ (ops : List Op) (s : MMIODeviceManager × Cmdline),
    (∀ op ∈ ops, ∃ env device id, op = Op.reg env device id) →
    (∀ o ∈ (runTrace s ops).2, ∃ x, o = Outcome.regOk x) →
    (ops.map Op.regId).Nodup →
    (∀ p ∈ s.1.id_to_dev_info, ¬ p.1 ∈ ops.map Op.regId) →
    (runTrace s ops).1.1.id_to_dev_info =
      (okInfos s.1.mmio_base s.1.irq (ops.map Op.regId)).reverse ++ s.1.id_to_dev_info ∧
    (runTrace s ops).1.1.bus.map BusEntry.base =
      s.1.bus.map BusEntry.base ++
        (okInfos s.1.mmio_base s.1.irq (ops.map Op.regId)).map (fun p => p.2.addr) ∧
    (runTrace s ops).2 =
      (okInfos s.1.mmio_base s.1.irq (ops.map Op.regId)).map
        (fun p => Outcome.regOk p.2.addr) := by
  intro ops
  induction ops with
  | nil =>
    intro s _ _ _ _
    exact ⟨rfl, by simp [okInfos, runTrace], rfl⟩
  | cons op rest ih =>
    intro s hreg hok hnd hfresh
    obtain ⟨env, device, id, rfl⟩ := hreg op (by simp)
    rw [runTrace_cons] at hok ⊢
    dsimp only at hok ⊢
    obtain ⟨x, hx⟩ :=
      hok ((runStep s (Op.reg env device id)).2) (List.mem_cons_self _ _)
    have hstepeq : runStep s (Op.reg env device id) =
        ((runStep s (Op.reg env device id)).1, Outcome.regOk x) := by
      rw [← hx]
    obtain ⟨hxval, hbus1, _, hmb1, hirq1, _, hreg1, _, _, _, _⟩ :=
      register_ok_state (runStep_reg_ok hstepeq)
    simp only [List.map_cons, Op.regId] at hnd hfresh
    have hnd2 := List.nodup_cons.mp hnd
    have hcons : (runStep s (Op.reg env device id)).1.1.id_to_dev_info =
        (id, ⟨s.1.mmio_base, s.1.irq, MMIO_LEN, DeviceType.Virtio⟩) :: s.1.id_to_dev_info := by
      rw [hreg1]
      exact infoInsert_no_filter _
        (fun p hp => fun hc => hfresh p hp (List.mem_cons.mpr (Or.inl hc)))
    obtain ⟨ihreg, ihbus, ihout⟩ := ih ((runStep s (Op.reg env device id)).1)
      (fun op2 h2 => hreg op2 (List.mem_cons_of_mem _ h2))
      (fun o2 h2 => hok o2 (List.mem_cons_of_mem _ h2))
      hnd2.2
      (by
        intro p hp
        rw [hcons] at hp
        rcases List.mem_cons.mp hp with rfl | hp2
        · exact hnd2.1
        · exact fun hc => hfresh p hp2 (List.mem_cons.mpr (Or.inr hc)))
    rw [hmb1, hirq1] at ihreg ihbus ihout
    refine ⟨?_, ?_, ?_⟩
    · rw [ihreg, hcons]
      simp only [List.map_cons, Op.regId, okInfos, List.reverse_cons, List.append_assoc]
      rfl
    · rw [ihbus, hbus1]
      simp only [List.map_cons, Op.regId, okInfos, List.map_append, List.append_assoc]
      rfl
    · rw [ihout, hx, hxval]
      simp only [List.map_cons, Op.regId, okInfos]

/-- Decomposition of a run over a trace ending in one extra operation. -/
theorem runTrace_split (s0 : MMIODeviceManager × Cmdline) {ops front : List Op} {op : Op}
    (hops : ops = front ++ [op]) :
    runTrace s0 ops =
      ((runStep (runTrace s0 front).1 op).1,
        (runTrace s0 front).2 ++ [(runStep (runTrace s0 front).1 op).2]) := by
  conv_lhs => rw [hops]
  rw [runTrace_append, runTrace_cons]
  rfl

/-- All-successful runs of registrations: every outcome, the registry
record, and the bus slot of the step at a given index. -/
theorem runOk_nth {gm b0 a b cap N : Nat} {ops : List Op}
    (hb0 : b0 < U64MOD) (ha : a < U32MOD)
    (hlen : ops.length = N + 1)
    (hreg : ∀ op ∈ ops, ∃ env device id, op = Op.reg env device id)
    (hok : ∀ o ∈ (runTrace (MMIODeviceManager.new gm b0 (a, b), Cmdline.new cap) ops).2,
      ∃ x, o = Outcome.regOk x) :
    (runTrace (MMIODeviceManager.new gm b0 (a, b), Cmdline.new cap) ops).2[N]? =
      some (Outcome.regOk ((b0 + N * 4096) % U64MOD)) ∧
    ∃ env device id,
      ops[N]? = some (Op.reg env device id) ∧
      infoGet
          (runTrace (MMIODeviceManager.new gm b0 (a, b), Cmdline.new cap) ops).1.1.id_to_dev_info
          id =
        some ⟨(b0 + N * 4096) % U64MOD, (a + N) % U32MOD, 4096, DeviceType.Virtio⟩ ∧
      ∃ e ∈ (runTrace (MMIODeviceManager.new gm b0 (a, b), Cmdline.new cap) ops).1.1.bus,
        e.base = (b0 + N * 4096) % U64MOD := by
  have hN : N < ops.length := by omega
  obtain ⟨env, device, id, hopN⟩ := hreg ops[N] (List.getElem_mem hN)
  have hops : ops = ops.take N ++ [Op.reg env device id] := by
    conv_lhs => rw [← List.take_append_drop N ops]
    congr 1
    rw [List.drop_eq_getElem_cons hN, List.drop_eq_nil_of_le (by omega), hopN]
  have htklen : (ops.take N).length = N := by
    rw [List.length_take]
    omega
  have hregF : ∀ op ∈ ops.take N, ∃ env2 device2 id2, op = Op.reg env2 device2 id2 :=
    fun op h2 => hreg op (List.take_subset N ops h2)
  have hokF : ∀ o ∈ (runTrace (MMIODeviceManager.new gm b0 (a, b), Cmdline.new cap)
      (ops.take N)).2, ∃ x, o = Outcome.regOk x := by
    intro o h2
    apply hok
    rw [hops, runTrace_append]
    exact List.mem_append_left _ h2
  obtain ⟨hmbN, hirqN, hlastN⟩ :=
    runOk_counters (ops.take N) (MMIODeviceManager.new gm b0 (a, b), Cmdline.new cap)
      hregF hokF hb0 ha
  have houts :
      (runTrace (MMIODeviceManager.new gm b0 (a, b), Cmdline.new cap) (ops.take N)).2.length
        = N :=
    (runTrace_length _ _).trans htklen
  have htrace :=
    runTrace_split (MMIODeviceManager.new gm b0 (a, b), Cmdline.new cap) hops
  obtain ⟨x, hx⟩ := hok _ (by
    rw [htrace]
    exact List.mem_append_right _ (List.mem_cons_self _ _))
  have hstepeq :
      runStep (runTrace (MMIODeviceManager.new gm b0 (a, b), Cmdline.new cap)
        (ops.take N)).1 (Op.reg env device id) =
      ((runStep (runTrace (MMIODeviceManager.new gm b0 (a, b), Cmdline.new cap)
        (ops.take N)).1 (Op.reg env device id)).1, Outcome.regOk x) := by
    rw [← hx]
  obtain ⟨hxval, hbus2, _, _, _, _, hreg2, _, _, _, _⟩ :=
    register_ok_state (runStep_reg_ok hstepeq)
  rw [hmbN] at hxval
  rw [htklen] at hmbN hirqN hxval
  constructor
  · rw [htrace]
    dsimp only
    rw [List.getElem?_append_right (le_of_eq houts), houts, Nat.sub_self]
    rw [hx, hxval]
    rfl
  · refine ⟨env, device, id, ?_, ?_, ?_⟩
    · rw [List.getElem?_eq_getElem hN, hopN]
    · rw [htrace]
      dsimp only
      rw [hreg2, infoGet_insert_self, hmbN, hirqN]
      rfl
    · rw [htrace]
      dsimp only
      rw [hbus2]
      refine ⟨⟨(runTrace (MMIODeviceManager.new gm b0 (a, b), Cmdline.new cap)
          (ops.take N)).1.1.mmio_base, MMIO_LEN, MmioDevice.new device⟩,
        List.mem_append_right _ (List.mem_cons_self _ _), ?_⟩
      rw [hmbN]
      rfl

/- ## Byte-store lemmas -/

theorem getByte_setBytes_lt : ∀ (l : List Nat) (st : List (Nat × Nat)) (s o : Nat),
    o < s → getByte (setBytes st s l) o = getByte st o := by
  intro l
  induction l with
  | nil => intro st s o _; rfl
  | cons v vs ih =>
    intro st s o ho
    show getByte (setBytes (setByte st s v) (s + 1) vs) o = getByte st o
    rw [ih (setByte st s v) (s + 1) o (by omega)]
    unfold getByte setByte
    rw [List.find?_cons_of_neg]
    simp only [decide_eq_true_eq]
    omega

theorem getByte_setBytes :
    ∀ (l : List Nat) (st : List (Nat × Nat)) (s i : Nat) (h : i < l.length),
    getByte (setBytes st s l) (s + i) = l.get ⟨i, h⟩ := by
  intro l
  induction l with
  | nil => intro st s i h; simp at h
  | cons v vs ih =>
    intro st s i h
    match i with
    | 0 =>
      rw [Nat.add_zero]
      show getByte (setBytes (setByte st s v) (s + 1) vs) s = v
      rw [getByte_setBytes_lt vs _ _ _ (by omega)]
      unfold getByte setByte
      rw [List.find?_cons_of_pos]
      simp
    | j + 1 =>
      have hj : j < vs.length := by simpa using h
      have := ih (setByte st s v) (s + 1) j hj
      show getByte (setBytes (setByte st s v) (s + 1) vs) (s + (j + 1)) = _
      rw [show s + (j + 1) = s + 1 + j by omega, this]
      rfl

theorem getBytes_setBytes (st : List (Nat × Nat)) (s : Nat) (l : List Nat) :
    getBytes (setBytes st s l) s l.length = l := by
  apply List.ext_get
  · simp [getBytes]
  · intro i h1 h2
    simp only [getBytes, List.get_eq_getElem, List.getElem_map, List.getElem_range]
    exact getByte_setBytes l st s i h2

/- ## Bus lemmas -/

theorem busGet_busSetFirst {addr off : Nat} {e : BusEntry} {d : MmioDevice} :
    ∀ {bus : List BusEntry}, busGet bus addr = some (off, e) →
    busGet (busSetFirst bus addr d) addr = some (off, { e with dev := d }) := by
  intro bus
  induction bus with
  | nil => intro h; simp [busGet, List.find?] at h
  | cons hd tl ih =>
    intro h
    unfold busGet at h ⊢
    unfold busSetFirst
    by_cases hc : hd.base ≤ addr ∧ addr < hd.base + hd.len
    · rw [if_pos hc]
      rw [List.find?_cons_of_pos _ (by simpa using hc)] at h
      rw [List.find?_cons_of_pos _ (by simpa using hc)]
      simp only [Option.some.injEq, Prod.mk.injEq] at h ⊢
      exact ⟨h.1, by rw [← h.2]⟩
    · rw [if_neg hc]
      rw [List.find?_cons_of_neg _ (by simpa using hc)] at h
      rw [List.find?_cons_of_neg _ (by simpa using hc)]
      have := ih (show busGet tl addr = some (off, e) by unfold busGet; exact h)
      unfold busGet at this
      exact this

/- ## update_drive characterization -/

theorem update_drive_ok_state {m : MMIODeviceManager} {addr off : Nat} (new_size : Nat)
    {e : BusEntry} (hfind : busGet m.bus addr = some (off, e)) (hp : e.dev.poisoned = false) :
    update_drive m addr new_size =
      (Except.ok (), { m with bus := (busSetFirst m.bus addr
        (mmioInterrupt (mmioWrite e.dev MMIO_CFG_SPACE_OFF (build_config_space new_size))
          VIRTIO_MMIO_INT_CONFIG)) }) := by
  unfold update_drive
  rw [hfind]
  simp [hp]

theorem update_drive_err_none {m : MMIODeviceManager} {addr new_size : Nat}
    (h : busGet m.bus addr = none) :
    update_drive m addr new_size = (Except.error Error.UpdateFailed, m) := by
  unfold update_drive
  rw [h]

theorem update_drive_err_poisoned {m : MMIODeviceManager} {addr new_size off : Nat}
    {e : BusEntry} (h : busGet m.bus addr = some (off, e)) (hp : e.dev.poisoned = true) :
    update_drive m addr new_size = (Except.error Error.UpdateFailed, m) := by
  unfold update_drive
  rw [h]
  simp [hp]

theorem update_drive_err_char {m : MMIODeviceManager} {addr new_size : Nat} :
    ((update_drive m addr new_size).1 = Except.error Error.UpdateFailed ↔
      busGet m.bus addr = none ∨
        ∃ off e, busGet m.bus addr = some (off, e) ∧ e.dev.poisoned = true) ∧
    ((update_drive m addr new_size).1 = Except.error Error.UpdateFailed →
      (update_drive m addr new_size).2 = m) := by
  match hfind : busGet m.bus addr with
  | none =>
    constructor
    · constructor
      · intro _; exact Or.inl rfl
      · intro _; rw [update_drive_err_none hfind]
    · intro _; rw [update_drive_err_none hfind]
  | some (off, e) =>
    by_cases hp : e.dev.poisoned = true
    · constructor
      · constructor
        · intro _; exact Or.inr ⟨off, e, rfl, hp⟩
        · intro _; rw [update_drive_err_poisoned hfind hp]
      · intro _; rw [update_drive_err_poisoned hfind hp]
    · have hok := update_drive_ok_state new_size hfind (Bool.of_not_eq_true hp)
      constructor
      · constructor
        · intro hcontra
          rw [hok] at hcontra
          simp at hcontra
        · rintro (hnone | ⟨off2, e2, he2, hp2⟩)
          · cases hnone
          · injection he2 with he2
            injection he2 with h1 h2
            rw [← h2] at hp2
            exact absurd hp2 hp
      · intro hcontra
        rw [hok] at hcontra
        simp at hcontra

/- ## C1 -/

/-- C1 counterexample: the claim is false as stated — a registration on a
fresh manager that fails at the command-line step (builder capacity 10, so
the insertion is `TooLarge`) returns an error, yet the device remains
installed on the bus, a persisting visible state change. -/
theorem c1_cmdline_error_changes_bus :
    register_virtio_device envOk mFresh (Cmdline.new 10) devOne "root" =
      (Except.error (Error.Cmdline CmdlineError.TooLarge), mCmdFail, Cmdline.new 10) ∧
    ¬ mCmdFail.bus = mFresh.bus := by
  constructor
  · decide
  · decide

/-- C1 (amended): when `register_virtio_device` returns any error, the
command-line buffer, the `next_addr` and IRQ counters, and the device-info
registry are unchanged; for the errors `IrqsExhausted`, `CreateMmioDevice`,
`RegisterIoEvent`, `RegisterIrqFd` and `BusError` the whole manager is
unchanged, while on a `Cmdline` error the freshly installed device remains
on the bus (in addition to the hypervisor-side ioeventfd/irqfd
registrations, which are outside the manager state). -/
theorem c1_register_error_frame {env : Env} {m : MMIODeviceManager} {cmdline : Cmdline}
    {device : VirtioDevice} {id : String} {e : Error} {m1 : MMIODeviceManager} {c1 : Cmdline}
    (h : register_virtio_device env m cmdline device id = (Except.error e, m1, c1)) :
    c1 = cmdline ∧ m1.mmio_base = m.mmio_base ∧ m1.irq = m.irq ∧
    m1.id_to_dev_info = m.id_to_dev_info ∧
    ((∀ ce, e ≠ Error.Cmdline ce) → m1 = m) ∧
    ((∃ ce, e = Error.Cmdline ce) →
      m1.bus = m.bus ++ [⟨m.mmio_base, MMIO_LEN, MmioDevice.new device⟩]) := by
  obtain ⟨h1, _, h3, h4, _, h6, h7, h8⟩ := register_err_state h
  exact ⟨h1, h3, h4, h6, h8, h7⟩

/-- Witness for C1 at the command-line failure of `c1_cmdline_error_changes_bus`. -/
theorem c1_register_error_frame_witness :
    register_virtio_device envOk mFresh (Cmdline.new 10) devOne "root" =
      (Except.error (Error.Cmdline CmdlineError.TooLarge), mCmdFail, Cmdline.new 10) ∧
    (Cmdline.new 10 = Cmdline.new 10 ∧ mCmdFail.mmio_base = mFresh.mmio_base ∧
      mCmdFail.irq = mFresh.irq ∧ mCmdFail.id_to_dev_info = mFresh.id_to_dev_info ∧
      ((∀ ce, Error.Cmdline CmdlineError.TooLarge ≠ Error.Cmdline ce) → mCmdFail = mFresh) ∧
      ((∃ ce, Error.Cmdline CmdlineError.TooLarge = Error.Cmdline ce) →
        mCmdFail.bus = mFresh.bus ++ [⟨mFresh.mmio_base, MMIO_LEN, MmioDevice.new devOne⟩])) :=
  ⟨by decide,
    @c1_register_error_frame envOk mFresh (Cmdline.new 10) devOne "root"
      (Error.Cmdline CmdlineError.TooLarge) mCmdFail (Cmdline.new 10) (by decide)⟩

/- ## C10 -/

/-- C10: whenever `register_virtio_device` returns an error, the
next-address counter, the IRQ counter, and the device-info registry are
unchanged, because their updates happen only after the last fallible step. -/
theorem c10_register_error_keeps_counters {env : Env} {m : MMIODeviceManager}
    {cmdline : Cmdline} {device : VirtioDevice} {id : String} {e : Error}
    {m1 : MMIODeviceManager} {c1 : Cmdline}
    (h : register_virtio_device env m cmdline device id = (Except.error e, m1, c1)) :
    m1.mmio_base = m.mmio_base ∧ m1.irq = m.irq ∧ m1.id_to_dev_info = m.id_to_dev_info := by
  obtain ⟨_, _, h3, h4, _, h6, _, _⟩ := register_err_state h
  exact ⟨h3, h4, h6⟩

/-- Witness for C10 at a `BusError` failure: a second registration on the
manager left behind by a command-line failure collides on the bus. -/
theorem c10_register_error_keeps_counters_witness :
    register_virtio_device envOk mCmdFail (Cmdline.new 4096) devOne "second" =
      (Except.error (Error.BusError BusError.Overlap), mCmdFail, Cmdline.new 4096) ∧
    (mCmdFail.mmio_base = mCmdFail.mmio_base ∧ mCmdFail.irq = mCmdFail.irq ∧
      mCmdFail.id_to_dev_info = mCmdFail.id_to_dev_info) :=
  ⟨by decide,
    @c10_register_error_keeps_counters envOk mCmdFail (Cmdline.new 4096) devOne "second"
      (Error.BusError BusError.Overlap) mCmdFail (Cmdline.new 4096) (by decide)⟩

/- ## C6 -/

/-- C6: when `update_drive(addr, new_size)` succeeds on an address hosting
a device whose lock is not poisoned, the device observes exactly one bus
write at offset `0x100` carrying the config-space payload built from
`new_size`, followed by exactly one interrupt pulse with cause
`VIRTIO_MMIO_INT_CONFIG`, and a subsequent read of config space at offset
`0x100` yields the payload bytes. -/
theorem c6_update_drive_effect {m : MMIODeviceManager} {addr new_size off : Nat}
    {e : BusEntry} (hfind : busGet m.bus addr = some (off, e))
    (hp : e.dev.poisoned = false) :
    (update_drive m addr new_size).1 = Except.ok () ∧
    ∃ e1, busGet (update_drive m addr new_size).2.bus addr = some (off, e1) ∧
      e1.base = e.base ∧ e1.len = e.len ∧
      e1.dev.events = e.dev.events ++
        [DevEvent.write MMIO_CFG_SPACE_OFF (build_config_space new_size),
         DevEvent.intr VIRTIO_MMIO_INT_CONFIG] ∧
      mmioReadConfig e1.dev MMIO_CFG_SPACE_OFF 8 = build_config_space new_size := by
  have hok := update_drive_ok_state new_size hfind hp
  rw [hok]
  refine ⟨rfl, ?_⟩
  refine ⟨_, busGet_busSetFirst hfind, rfl, rfl, ?_, ?_⟩
  · simp [mmioInterrupt, mmioWrite]
  · show getBytes (mmioInterrupt (mmioWrite e.dev MMIO_CFG_SPACE_OFF
        (build_config_space new_size)) VIRTIO_MMIO_INT_CONFIG).config
        (MMIO_CFG_SPACE_OFF - MMIO_CFG_SPACE_OFF) 8 = build_config_space new_size
    have hlen : (build_config_space new_size).length = 8 := by simp [build_config_space]
    simp only [mmioInterrupt, mmioWrite, le_refl, if_pos, Nat.sub_self]
    rw [← hlen]
    exact getBytes_setBytes _ _ _

/-- Witness for C6 on a one-slot manager. -/
theorem c6_update_drive_effect_witness :
    (update_drive mCmdFail 0xd0000000 1048576).1 = Except.ok () ∧
    ∃ e1, busGet (update_drive mCmdFail 0xd0000000 1048576).2.bus 0xd0000000 =
        some (0, e1) ∧
      e1.base = (0xd0000000 : Nat) ∧ e1.len = MMIO_LEN ∧
      e1.dev.events = (MmioDevice.new devOne).events ++
        [DevEvent.write MMIO_CFG_SPACE_OFF (build_config_space 1048576),
         DevEvent.intr VIRTIO_MMIO_INT_CONFIG] ∧
      mmioReadConfig e1.dev MMIO_CFG_SPACE_OFF 8 = build_config_space 1048576 :=
  @c6_update_drive_effect mCmdFail 0xd0000000 1048576 0
    ⟨0xd0000000, MMIO_LEN, MmioDevice.new devOne⟩ (by decide) (by decide)

/- ## C7 -/

/-- C7: `update_drive(addr, new_size)` fails, with `UpdateFailed`, exactly
when no bus entry contains `addr` or the found device's lock is poisoned;
on failure the manager — hence every device state — is unchanged, so no
config write and no interrupt are performed; and on a fresh manager
`update_drive(0xbeef, 1048576)` returns `UpdateFailed`. -/
theorem c7_update_drive_err_iff :
    (∀ (m : MMIODeviceManager) (addr new_size : Nat),
      ((update_drive m addr new_size).1 = Except.error Error.UpdateFailed ↔
        busGet m.bus addr = none ∨
          ∃ off e, busGet m.bus addr = some (off, e) ∧ e.dev.poisoned = true) ∧
      ((update_drive m addr new_size).1 = Except.error Error.UpdateFailed →
        (update_drive m addr new_size).2 = m)) ∧
    (update_drive (MMIODeviceManager.new 0 0xd0000000 (5, 23)) 0xbeef 1048576).1 =
      Except.error Error.UpdateFailed := by
  constructor
  · intro m addr new_size
    exact update_drive_err_char
  · decide

/- ## C2 -/

/-- C2 counterexample: with `mmio_base = 0xfffffffffffff000` the first two
registrations on a fresh manager both succeed, and the N = 1 registration
returns address 0 — the u64 address counter wraps — whereas the claim
demands `mmio_base + 1·4096 = 2^64`, which the second outcome is not. -/
theorem c2_u64_wrap_counterexample :
    (runTrace (mWrap, Cmdline.new 4096)
        [Op.reg envOk devOne "a", Op.reg envOk devOne "b"]).2 =
      [Outcome.regOk 0xfffffffffffff000, Outcome.regOk 0] ∧
    ¬ Outcome.regOk 0 = Outcome.regOk (0xfffffffffffff000 + 1 * 4096) := by
  exact ⟨by decide, by decide⟩

/-- C2 (amended): for every N, if the first N + 1 registrations on a fresh
manager all succeed and nothing else runs, the N-th registration returns
`(mmio_base + N·4096) mod 2^64`, the device is recorded under its id at
that address with IRQ `(irq_min + N) mod 2^32`, and a bus slot sits at that
base; the reductions mod `2^64`/`2^32` are forced by the wrap of the u64
and u32 counters at the top of their ranges. -/
theorem c2_nth_device_layout {gm b0 a b cap N : Nat} {ops : List Op}
    (hb0 : b0 < U64MOD) (ha : a < U32MOD)
    (hlen : ops.length = N + 1)
    (hreg : ∀ op ∈ ops, ∃ env device id, op = Op.reg env device id)
    (hok : ∀ o ∈ (runTrace (MMIODeviceManager.new gm b0 (a, b), Cmdline.new cap) ops).2,
      ∃ x, o = Outcome.regOk x) :
    (runTrace (MMIODeviceManager.new gm b0 (a, b), Cmdline.new cap) ops).2[N]? =
      some (Outcome.regOk ((b0 + N * 4096) % U64MOD)) ∧
    ∃ env device id,
      ops[N]? = some (Op.reg env device id) ∧
      infoGet
          (runTrace (MMIODeviceManager.new gm b0 (a, b), Cmdline.new cap) ops).1.1.id_to_dev_info
          id =
        some ⟨(b0 + N * 4096) % U64MOD, (a + N) % U32MOD, 4096, DeviceType.Virtio⟩ ∧
      ∃ e ∈ (runTrace (MMIODeviceManager.new gm b0 (a, b), Cmdline.new cap) ops).1.1.bus,
        e.base = (b0 + N * 4096) % U64MOD :=
  runOk_nth hb0 ha hlen hreg hok

/-- Witness for C2: two successful registrations on the scenario-1 manager;
the N = 1 device lands at `0xd0001000` with IRQ 6. -/
theorem c2_nth_device_layout_witness :
    (runTrace (MMIODeviceManager.new 0 0xd0000000 (5, 23), Cmdline.new 4096)
        [Op.reg envOk devOne "a", Op.reg envOk devOne "b"]).2[1]? =
      some (Outcome.regOk ((0xd0000000 + 1 * 4096) % U64MOD)) ∧
    ∃ env device id,
      ([Op.reg envOk devOne "a", Op.reg envOk devOne "b"] : List Op)[1]? =
        some (Op.reg env device id) ∧
      infoGet (runTrace (MMIODeviceManager.new 0 0xd0000000 (5, 23), Cmdline.new 4096)
          [Op.reg envOk devOne "a", Op.reg envOk devOne "b"]).1.1.id_to_dev_info id =
        some ⟨(0xd0000000 + 1 * 4096) % U64MOD, (5 + 1) % U32MOD, 4096, DeviceType.Virtio⟩ ∧
      ∃ e ∈ (runTrace (MMIODeviceManager.new 0 0xd0000000 (5, 23), Cmdline.new 4096)
          [Op.reg envOk devOne "a", Op.reg envOk devOne "b"]).1.1.bus,
        e.base = (0xd0000000 + 1 * 4096) % U64MOD :=
  c2_nth_device_layout (by decide) (by decide) (by decide)
    (by
      intro op hop
      rcases List.mem_cons.mp hop with rfl | hop2
      · exact ⟨envOk, devOne, "a", rfl⟩
      · rcases List.mem_cons.mp hop2 with rfl | hop3
        · exact ⟨envOk, devOne, "b", rfl⟩
        · cases hop3)
    (by
      intro o ho
      have houts : (runTrace (MMIODeviceManager.new 0 0xd0000000 (5, 23), Cmdline.new 4096)
          [Op.reg envOk devOne "a", Op.reg envOk devOne "b"]).2 =
          [Outcome.regOk 0xd0000000, Outcome.regOk 0xd0001000] := by decide
      rw [houts] at ho
      rcases List.mem_cons.mp ho with rfl | ho2
      · exact ⟨_, rfl⟩
      · rcases List.mem_cons.mp ho2 with rfl | ho3
        · exact ⟨_, rfl⟩
        · cases ho3)

/- ## C4 -/

/-- C4 counterexample: with the IRQ interval `(u32::MAX, u32::MAX)` the
claim demands that after `irq_max − irq_min + 1 = 1` successful
registration the next fails with `IrqsExhausted`; instead the IRQ counter
wraps to 0 and the second registration also succeeds. -/
theorem c4_u32_wrap_counterexample :
    (runTrace (mIrqTop, Cmdline.new 4096)
        [Op.reg envOk devOne "a", Op.reg envOk devOne "b"]).2 =
      [Outcome.regOk 0xd0000000, Outcome.regOk 0xd0001000] ∧
    ¬ Outcome.regOk 0xd0001000 = Outcome.regErr Error.IrqsExhausted := by
  exact ⟨by decide, by decide⟩

/-- C4 (amended): provided `irq_max + 1 < 2^32` (the u32 counter must not
wrap), a fresh manager with interval `(irq_min, irq_max)` accepts
`irq_max + 1 − irq_min` registrations and fails the next with
`IrqsExhausted` whenever no step fails with any other error; the display
text is "no more IRQs are available", and the check `irq > last_irq` comes
before every other step, returning with nothing changed whatever the
hypervisor, bus and builder would have done. -/
theorem c4_irq_exhaustion :
    (∀ (gm b0 a b cap : Nat) (ops : List Op),
      b + 1 < U32MOD →
      ops.length = (b + 1 - a) + 1 →
      (∀ op ∈ ops, ∃ env device id, op = Op.reg env device id) →
      (∀ o ∈ (runTrace (MMIODeviceManager.new gm b0 (a, b), Cmdline.new cap) ops).2,
        ∀ e2, o = Outcome.regErr e2 → e2 = Error.IrqsExhausted) →
      (∀ k, k < b + 1 - a →
        ∃ x, (runTrace (MMIODeviceManager.new gm b0 (a, b), Cmdline.new cap) ops).2[k]? =
          some (Outcome.regOk x)) ∧
      (runTrace (MMIODeviceManager.new gm b0 (a, b), Cmdline.new cap) ops).2[b + 1 - a]? =
        some (Outcome.regErr Error.IrqsExhausted)) ∧
    Error.display Error.IrqsExhausted = "no more IRQs are available" ∧
    (∀ (env : Env) (m : MMIODeviceManager) (c : Cmdline) (device : VirtioDevice) (id : String),
      m.last_irq < m.irq →
      register_virtio_device env m c device id = (Except.error Error.IrqsExhausted, m, c)) := by
  refine ⟨?_, rfl, fun env m c device id h => register_exhausted_of_lt h⟩
  intro gm b0 a b cap ops hb hlen hreg herr
  have hN : (b + 1 - a) < ops.length := by omega
  obtain ⟨env, device, id, hopN⟩ := hreg ops[b + 1 - a] (List.getElem_mem hN)
  have hops : ops = ops.take (b + 1 - a) ++ [Op.reg env device id] := by
    conv_lhs => rw [← List.take_append_drop (b + 1 - a) ops]
    congr 1
    rw [List.drop_eq_getElem_cons hN, List.drop_eq_nil_of_le (by omega), hopN]
  have htklen : (ops.take (b + 1 - a)).length = b + 1 - a := by
    rw [List.length_take]
    omega
  have htrace :=
    runTrace_split (MMIODeviceManager.new gm b0 (a, b), Cmdline.new cap) hops
  have hregF : ∀ op ∈ ops.take (b + 1 - a), ∃ env2 device2 id2, op = Op.reg env2 device2 id2 :=
    fun op h2 => hreg op (List.take_subset _ ops h2)
  have herrF : ∀ o ∈ (runTrace (MMIODeviceManager.new gm b0 (a, b), Cmdline.new cap)
      (ops.take (b + 1 - a))).2, ∀ e2, o = Outcome.regErr e2 → e2 = Error.IrqsExhausted := by
    intro o h2 e2 he2
    refine herr o ?_ e2 he2
    rw [htrace]
    exact List.mem_append_left _ h2
  have hkey : (∀ o ∈ (runTrace (MMIODeviceManager.new gm b0 (a, b), Cmdline.new cap)
        (ops.take (b + 1 - a))).2, ∃ x, o = Outcome.regOk x) ∧
      (runTrace (MMIODeviceManager.new gm b0 (a, b), Cmdline.new cap)
        (ops.take (b + 1 - a))).1.1.last_irq <
      (runTrace (MMIODeviceManager.new gm b0 (a, b), Cmdline.new cap)
        (ops.take (b + 1 - a))).1.1.irq := by
    by_cases hab : a ≤ b + 1
    · have hcount : (MMIODeviceManager.new gm b0 (a, b), Cmdline.new cap).1.irq +
          (ops.take (b + 1 - a)).length ≤
          (MMIODeviceManager.new gm b0 (a, b), Cmdline.new cap).1.last_irq + 1 := by
        show a + (ops.take (b + 1 - a)).length ≤ b + 1
        rw [htklen]
        omega
      obtain ⟨hokF, hirqF, hlastF⟩ :=
        c4_aux (ops.take (b + 1 - a)) (MMIODeviceManager.new gm b0 (a, b), Cmdline.new cap)
          hregF herrF hcount hb
      refine ⟨hokF, ?_⟩
      rw [hirqF, hlastF]
      show b < a + (ops.take (b + 1 - a)).length
      rw [htklen]
      omega
    · have hc0 : b + 1 - a = 0 := by omega
      rw [hc0, List.take_zero]
      refine ⟨?_, ?_⟩
      · intro o ho
        simp [runTrace] at ho
      · show b < a
        omega
  obtain ⟨hokF, hexh⟩ := hkey
  have hstepN := @runStep_reg_of_err
    (runTrace (MMIODeviceManager.new gm b0 (a, b), Cmdline.new cap) (ops.take (b + 1 - a))).1
    env device id Error.IrqsExhausted (register_exhausted_of_lt hexh)
  have houts :
      (runTrace (MMIODeviceManager.new gm b0 (a, b), Cmdline.new cap)
        (ops.take (b + 1 - a))).2.length = b + 1 - a :=
    (runTrace_length _ _).trans htklen
  constructor
  · intro k hk
    have hkf : k < (runTrace (MMIODeviceManager.new gm b0 (a, b), Cmdline.new cap)
        (ops.take (b + 1 - a))).2.length := by omega
    rw [htrace]
    dsimp only
    rw [List.getElem?_append_left hkf]
    obtain ⟨x, hx⟩ := hokF _ (List.getElem?_mem (List.getElem?_eq_getElem hkf))
    exact ⟨x, by rw [List.getElem?_eq_getElem hkf, hx]⟩
  · rw [htrace]
    dsimp only
    rw [List.getElem?_append_right (le_of_eq houts), houts, Nat.sub_self, hstepN]
    rfl

/-- Witness for C4 on the interval `(5, 7)`: three registrations succeed
and the fourth fails with `IrqsExhausted`. -/
theorem c4_irq_exhaustion_witness :
    ((∀ k, k < 7 + 1 - 5 →
      ∃ x, (runTrace (MMIODeviceManager.new 0 0xd0000000 (5, 7), Cmdline.new 4096)
        [Op.reg envOk devOne "a", Op.reg envOk devOne "b",
         Op.reg envOk devOne "c", Op.reg envOk devOne "d"]).2[k]? =
        some (Outcome.regOk x)) ∧
    (runTrace (MMIODeviceManager.new 0 0xd0000000 (5, 7), Cmdline.new 4096)
        [Op.reg envOk devOne "a", Op.reg envOk devOne "b",
         Op.reg envOk devOne "c", Op.reg envOk devOne "d"]).2[7 + 1 - 5]? =
      some (Outcome.regErr Error.IrqsExhausted)) ∧
    Error.display Error.IrqsExhausted = "no more IRQs are available" :=
  ⟨c4_irq_exhaustion.1 0 0xd0000000 5 7 4096
    [Op.reg envOk devOne "a", Op.reg envOk devOne "b",
     Op.reg envOk devOne "c", Op.reg envOk devOne "d"]
    (by decide) (by decide)
    (by
      intro op hop
      rcases List.mem_cons.mp hop with rfl | hop2
      · exact ⟨envOk, devOne, "a", rfl⟩
      · rcases List.mem_cons.mp hop2 with rfl | hop3
        · exact ⟨envOk, devOne, "b", rfl⟩
        · rcases List.mem_cons.mp hop3 with rfl | hop4
          · exact ⟨envOk, devOne, "c", rfl⟩
          · rcases List.mem_cons.mp hop4 with rfl | hop5
            · exact ⟨envOk, devOne, "d", rfl⟩
            · cases hop5)
    (by
      intro o ho e2 he2
      have houts : (runTrace (MMIODeviceManager.new 0 0xd0000000 (5, 7), Cmdline.new 4096)
          [Op.reg envOk devOne "a", Op.reg envOk devOne "b",
           Op.reg envOk devOne "c", Op.reg envOk devOne "d"]).2 =
          [Outcome.regOk 0xd0000000, Outcome.regOk 0xd0001000,
           Outcome.regOk 0xd0002000, Outcome.regErr Error.IrqsExhausted] := by decide
      rw [houts] at ho
      rcases List.mem_cons.mp ho with rfl | ho2
      · cases he2
      · rcases List.mem_cons.mp ho2 with rfl | ho3
        · cases he2
        · rcases List.mem_cons.mp ho3 with rfl | ho4
          · cases he2
          · rcases List.mem_cons.mp ho4 with rfl | ho5
            · injection he2 with he3
              exact he3.symm
            · cases ho5),
    c4_irq_exhaustion.2.1⟩

/-- Witness for C7 at a poisoned device lock. -/
theorem c7_update_drive_err_iff_witness :
    (update_drive mPoisoned 0xd0000000 999).1 = Except.error Error.UpdateFailed ∧
    (update_drive mPoisoned 0xd0000000 999).2 = mPoisoned := by
  refine ⟨(c7_update_drive_err_iff.1 mPoisoned 0xd0000000 999).1.mpr ?_, ?_⟩
  · exact Or.inr ⟨0, ⟨0xd0000000, MMIO_LEN, devPoisoned⟩, by decide, by decide⟩
  · exact (c7_update_drive_err_iff.1 mPoisoned 0xd0000000 999).2 (by decide)

/- ## C3 -/

/-- C3 counterexample: registering twice under the same id succeeds both
times, the second registry insertion silently overwrites the first, and the
first device then sits on the bus (base `0xd0000000`) with no registry
record of its own — ids are not kept unique between bus and registry. -/
theorem c3_duplicate_id_counterexample :
    (runTrace (mFresh, Cmdline.new 4096)
        [Op.reg envOk devOne "x", Op.reg envOk devOne "x"]).2 =
      [Outcome.regOk 0xd0000000, Outcome.regOk 0xd0001000] ∧
    (runTrace (mFresh, Cmdline.new 4096)
        [Op.reg envOk devOne "x", Op.reg envOk devOne "x"]).1.1.id_to_dev_info =
      [("x", ⟨0xd0001000, 6, 4096, DeviceType.Virtio⟩)] ∧
    (runTrace (mFresh, Cmdline.new 4096)
        [Op.reg envOk devOne "x", Op.reg envOk devOne "x"]).1.1.bus.map BusEntry.base =
      [0xd0000000, 0xd0001000] ∧
    ¬ (∀ e ∈ (runTrace (mFresh, Cmdline.new 4096)
        [Op.reg envOk devOne "x", Op.reg envOk devOne "x"]).1.1.bus,
      ∃ p ∈ (runTrace (mFresh, Cmdline.new 4096)
        [Op.reg envOk devOne "x", Op.reg envOk devOne "x"]).1.1.id_to_dev_info,
        p.2.addr = e.base) := by
  exact ⟨by decide, by decide, by decide, by decide⟩

/-- C3 (amended): after any all-successful sequence of registrations with
pairwise-distinct ids, and at most `2^32` of them (the u32 IRQ counter
wraps beyond that), every device on the bus has a registry record at its
base, and the recorded addresses and the recorded IRQs are pairwise
distinct. -/
theorem c3_registry_uniqueness {gm b0 a b cap : Nat} {ops : List Op}
    (hb0 : b0 < U64MOD) (ha : a < U32MOD)
    (hlen : ops.length ≤ U32MOD)
    (hreg : ∀ op ∈ ops, ∃ env device id, op = Op.reg env device id)
    (hok : ∀ o ∈ (runTrace (MMIODeviceManager.new gm b0 (a, b), Cmdline.new cap) ops).2,
      ∃ x, o = Outcome.regOk x)
    (hnd : (ops.map Op.regId).Nodup) :
    (∀ e ∈ (runTrace (MMIODeviceManager.new gm b0 (a, b), Cmdline.new cap) ops).1.1.bus,
      ∃ p ∈ (runTrace (MMIODeviceManager.new gm b0 (a, b),
          Cmdline.new cap) ops).1.1.id_to_dev_info,
        p.2.addr = e.base) ∧
    ((runTrace (MMIODeviceManager.new gm b0 (a, b),
        Cmdline.new cap) ops).1.1.id_to_dev_info.map (fun p => p.2.addr)).Nodup ∧
    ((runTrace (MMIODeviceManager.new gm b0 (a, b),
        Cmdline.new cap) ops).1.1.id_to_dev_info.map (fun p => p.2.irq)).Nodup := by
  obtain ⟨hregy, hbases, _⟩ :=
    runOk_full ops (MMIODeviceManager.new gm b0 (a, b), Cmdline.new cap) hreg hok hnd
      (by intro p hp; cases hp)
  have hproj1 : (MMIODeviceManager.new gm b0 (a, b), Cmdline.new cap).1.id_to_dev_info =
    ([] : List (String × MMIODeviceInfo)) := rfl
  have hproj2 : (MMIODeviceManager.new gm b0 (a, b), Cmdline.new cap).1.bus =
    ([] : List BusEntry) := rfl
  have hproj3 : (MMIODeviceManager.new gm b0 (a, b), Cmdline.new cap).1.mmio_base = b0 := rfl
  have hproj4 : (MMIODeviceManager.new gm b0 (a, b), Cmdline.new cap).1.irq = a := rfl
  rw [hproj1, hproj3, hproj4, List.append_nil] at hregy
  rw [hproj2, hproj3, hproj4] at hbases
  try simp only [List.map_nil, List.nil_append] at hbases
  have hids : (ops.map Op.regId).length = ops.length := List.length_map ops Op.regId
  refine ⟨?_, ?_, ?_⟩
  · intro e he
    have hbase : e.base ∈ (runTrace (MMIODeviceManager.new gm b0 (a, b),
        Cmdline.new cap) ops).1.1.bus.map BusEntry.base :=
      List.mem_map.mpr ⟨e, he, rfl⟩
    rw [hbases] at hbase
    try simp only [List.map_nil, List.nil_append] at hbase
    obtain ⟨p, hp, hpeq⟩ := List.mem_map.mp hbase
    exact ⟨p, by rw [hregy]; exact List.mem_reverse.mpr hp, hpeq⟩
  · rw [hregy, List.map_reverse, List.nodup_reverse]
    rw [okInfos_addrs _ _ _ hb0]
    exact addr_range_nodup _ _ (by rw [hids]; exact hlen)
  · rw [hregy, List.map_reverse, List.nodup_reverse]
    rw [okInfos_irqs _ _ _ ha]
    exact irq_range_nodup _ _ (by rw [hids]; exact hlen)

/-- Witness for C3: two registrations under distinct ids. -/
theorem c3_registry_uniqueness_witness :
    (∀ e ∈ (runTrace (MMIODeviceManager.new 0 0xd0000000 (5, 23), Cmdline.new 4096)
        [Op.reg envOk devOne "a", Op.reg envOk devOne "b"]).1.1.bus,
      ∃ p ∈ (runTrace (MMIODeviceManager.new 0 0xd0000000 (5, 23),
          Cmdline.new 4096) [Op.reg envOk devOne "a", Op.reg envOk devOne "b"]).1.1.id_to_dev_info,
        p.2.addr = e.base) ∧
    ((runTrace (MMIODeviceManager.new 0 0xd0000000 (5, 23), Cmdline.new 4096)
        [Op.reg envOk devOne "a", Op.reg envOk devOne "b"]).1.1.id_to_dev_info.map
        (fun p => p.2.addr)).Nodup ∧
    ((runTrace (MMIODeviceManager.new 0 0xd0000000 (5, 23), Cmdline.new 4096)
        [Op.reg envOk devOne "a", Op.reg envOk devOne "b"]).1.1.id_to_dev_info.map
        (fun p => p.2.irq)).Nodup :=
  c3_registry_uniqueness (by decide) (by decide) (by decide)
    (by
      intro op hop
      rcases List.mem_cons.mp hop with rfl | hop2
      · exact ⟨envOk, devOne, "a", rfl⟩
      · rcases List.mem_cons.mp hop2 with rfl | hop3
        · exact ⟨envOk, devOne, "b", rfl⟩
        · cases hop3)
    (by
      intro o ho
      have houts : (runTrace (MMIODeviceManager.new 0 0xd0000000 (5, 23), Cmdline.new 4096)
          [Op.reg envOk devOne "a", Op.reg envOk devOne "b"]).2 =
          [Outcome.regOk 0xd0000000, Outcome.regOk 0xd0001000] := by decide
      rw [houts] at ho
      rcases List.mem_cons.mp ho with rfl | ho2
      · exact ⟨_, rfl⟩
      · rcases List.mem_cons.mp ho2 with rfl | ho3
        · exact ⟨_, rfl⟩
        · cases ho3)
    (by decide)

/- ## C8 -/

/-- C8 counterexample: after registering twice under the id "x", a device
registered under "x" lives at base `0xd0000000` on the bus (the first
registration), yet `get_address "x"` returns the second base `0xd0001000`,
so the claimed equivalence fails in the right-to-left direction. -/
theorem c8_duplicate_id_counterexample :
    get_address (runTrace (mFresh, Cmdline.new 4096)
        [Op.reg envOk devOne "x", Op.reg envOk devOne "x"]).1.1 "x" = some 0xd0001000 ∧
    ([Op.reg envOk devOne "x", Op.reg envOk devOne "x"] : List Op)[0]? =
      some (Op.reg envOk devOne "x") ∧
    (runTrace (mFresh, Cmdline.new 4096)
        [Op.reg envOk devOne "x", Op.reg envOk devOne "x"]).2[0]? =
      some (Outcome.regOk 0xd0000000) ∧
    (∃ e ∈ (runTrace (mFresh, Cmdline.new 4096)
        [Op.reg envOk devOne "x", Op.reg envOk devOne "x"]).1.1.bus,
      e.base = 0xd0000000) ∧
    ¬ get_address (runTrace (mFresh, Cmdline.new 4096)
        [Op.reg envOk devOne "x", Op.reg envOk devOne "x"]).1.1 "x" = some 0xd0000000 := by
  exact ⟨by decide, by decide, by decide, by decide, by decide⟩

/-- C8 (amended): after an all-successful sequence of registrations with
pairwise-distinct ids, `get_address id = some a` exactly when the
registration under `id` returned `a` and a bus slot sits at base `a`; for
an id under which nothing was registered, `get_address` returns `none`. -/
theorem c8_get_address_iff {gm b0 a b cap : Nat} {ops : List Op}
    (hreg : ∀ op ∈ ops, ∃ env device id, op = Op.reg env device id)
    (hok : ∀ o ∈ (runTrace (MMIODeviceManager.new gm b0 (a, b), Cmdline.new cap) ops).2,
      ∃ x, o = Outcome.regOk x)
    (hnd : (ops.map Op.regId).Nodup) :
    (∀ (id : String) (addr : Nat),
      get_address (runTrace (MMIODeviceManager.new gm b0 (a, b), Cmdline.new cap) ops).1.1 id =
          some addr ↔
        ((∃ (k : Nat) (env : Env) (device : VirtioDevice),
            ops[k]? = some (Op.reg env device id) ∧
            (runTrace (MMIODeviceManager.new gm b0 (a, b), Cmdline.new cap) ops).2[k]? =
              some (Outcome.regOk addr)) ∧
          ∃ e ∈ (runTrace (MMIODeviceManager.new gm b0 (a, b), Cmdline.new cap) ops).1.1.bus,
            e.base = addr)) ∧
    (∀ id : String, ¬ id ∈ ops.map Op.regId →
      get_address (runTrace (MMIODeviceManager.new gm b0 (a, b),
        Cmdline.new cap) ops).1.1 id = none) := by
  obtain ⟨hregy, hbases, houtc⟩ :=
    runOk_full ops (MMIODeviceManager.new gm b0 (a, b), Cmdline.new cap) hreg hok hnd
      (by intro p hp; cases hp)
  have hproj1 : (MMIODeviceManager.new gm b0 (a, b), Cmdline.new cap).1.id_to_dev_info =
    ([] : List (String × MMIODeviceInfo)) := rfl
  have hproj2 : (MMIODeviceManager.new gm b0 (a, b), Cmdline.new cap).1.bus =
    ([] : List BusEntry) := rfl
  have hproj3 : (MMIODeviceManager.new gm b0 (a, b), Cmdline.new cap).1.mmio_base = b0 := rfl
  have hproj4 : (MMIODeviceManager.new gm b0 (a, b), Cmdline.new cap).1.irq = a := rfl
  rw [hproj1, hproj3, hproj4, List.append_nil] at hregy
  rw [hproj2, hproj3, hproj4] at hbases
  rw [hproj3, hproj4] at houtc
  try simp only [List.map_nil, List.nil_append] at hbases
  have hkeys := okInfos_keys b0 a (ops.map Op.regId)
  have hlen2 : (okInfos b0 a (ops.map Op.regId)).length = ops.length := by
    rw [okInfos_length, List.length_map]
  have hndrev : ((okInfos b0 a (ops.map Op.regId)).reverse.map Prod.fst).Nodup := by
    rw [List.map_reverse, List.nodup_reverse, hkeys]
    exact hnd
  constructor
  · intro id addr
    constructor
    · intro h
      obtain ⟨info, hig, haddr⟩ : ∃ info,
          infoGet (runTrace (MMIODeviceManager.new gm b0 (a, b),
            Cmdline.new cap) ops).1.1.id_to_dev_info id = some info ∧ info.addr = addr := by
        unfold get_address at h
        rcases hig : infoGet (runTrace (MMIODeviceManager.new gm b0 (a, b),
            Cmdline.new cap) ops).1.1.id_to_dev_info id with _ | info
        · rw [hig] at h; cases h
        · rw [hig] at h
          injection h with h
          exact ⟨info, rfl, h⟩
      rw [hregy] at hig
      have hmem : (id, info) ∈ okInfos b0 a (ops.map Op.regId) :=
        List.mem_reverse.mp (infoGet_mem hig)
      obtain ⟨⟨k, hk⟩, hkeq⟩ := List.mem_iff_get.mp hmem
      have hkops : k < ops.length := by rw [← hlen2]; exact hk
      have hkids : k < (ops.map Op.regId).length := by rw [List.length_map]; exact hkops
      obtain ⟨env, device, id2, hop⟩ := hreg ops[k] (List.getElem_mem hkops)
      have hid2 : id2 = id := by
        have h1 := okInfos_key_at b0 a (ops.map Op.regId) k hk hkids
        rw [hkeq] at h1
        have h2 : (ops.map Op.regId).get ⟨k, hkids⟩ = Op.regId ops[k] := by
          have := List.getElem?_map Op.regId ops k
          rw [List.getElem?_eq_getElem hkids, List.getElem?_eq_getElem hkops] at this
          exact Option.some.inj this
        rw [h2, hop] at h1
        exact h1.symm
      refine ⟨⟨k, env, device, ?_, ?_⟩, ?_⟩
      · rw [List.getElem?_eq_getElem hkops, hop, hid2]
      · rw [houtc]
        have := List.getElem?_map (fun p => Outcome.regOk p.2.addr)
          (okInfos b0 a (ops.map Op.regId)) k
        rw [List.getElem?_eq_getElem hk] at this
        rw [this]
        show some (Outcome.regOk (((okInfos b0 a (ops.map Op.regId)).get ⟨k, hk⟩).2.addr)) = _
        rw [hkeq, haddr]
      · have haddrmem : addr ∈ (okInfos b0 a (ops.map Op.regId)).map (fun p => p.2.addr) :=
          List.mem_map.mpr ⟨(id, info), hmem, haddr⟩
        rw [← hbases] at haddrmem
        have : addr ∈ (runTrace (MMIODeviceManager.new gm b0 (a, b),
            Cmdline.new cap) ops).1.1.bus.map BusEntry.base := by
          simpa using haddrmem
        obtain ⟨e, he, heq⟩ := List.mem_map.mp this
        exact ⟨e, he, heq⟩
    · rintro ⟨⟨k, env, device, hopk, houtk⟩, _⟩
      obtain ⟨hkops, hopeq⟩ := List.getElem?_eq_some.mp hopk
      have hkinfo : k < (okInfos b0 a (ops.map Op.regId)).length := by
        rw [hlen2]
        exact hkops
      have hkids : k < (ops.map Op.regId).length := by rw [List.length_map]; exact hkops
      rw [houtc] at houtk
      have hmapk := List.getElem?_map (fun p => Outcome.regOk p.2.addr)
        (okInfos b0 a (ops.map Op.regId)) k
      rw [List.getElem?_eq_getElem hkinfo] at hmapk
      rw [hmapk] at houtk
      have haddrk : ((okInfos b0 a (ops.map Op.regId)).get ⟨k, hkinfo⟩).2.addr = addr := by
        have := Option.some.inj houtk
        injection this with h2
      have hkeyk : ((okInfos b0 a (ops.map Op.regId)).get ⟨k, hkinfo⟩).1 = id := by
        rw [okInfos_key_at b0 a (ops.map Op.regId) k hkinfo hkids]
        have h2 : (ops.map Op.regId).get ⟨k, hkids⟩ = Op.regId ops[k] := by
          have := List.getElem?_map Op.regId ops k
          rw [List.getElem?_eq_getElem hkids, List.getElem?_eq_getElem hkops] at this
          exact Option.some.inj this
        rw [h2, hopeq]
        rfl
      have hmem : (id, ((okInfos b0 a (ops.map Op.regId)).get ⟨k, hkinfo⟩).2) ∈
          okInfos b0 a (ops.map Op.regId) := by
        rw [← hkeyk]
        exact (okInfos b0 a (ops.map Op.regId)).get_mem k hkinfo
      have hig := infoGet_of_mem hndrev (List.mem_reverse.mpr hmem)
      unfold get_address
      rw [hregy, hig]
      show some (((okInfos b0 a (ops.map Op.regId)).get ⟨k, hkinfo⟩).2.addr) = some addr
      rw [haddrk]
  · intro id hid
    have hnone : infoGet (runTrace (MMIODeviceManager.new gm b0 (a, b),
        Cmdline.new cap) ops).1.1.id_to_dev_info id = none := by
      rw [hregy]
      apply infoGet_eq_none
      intro p hp hc
      apply hid
      have : p.1 ∈ (okInfos b0 a (ops.map Op.regId)).map Prod.fst :=
        List.mem_map.mpr ⟨p, List.mem_reverse.mp hp, rfl⟩
      rw [hkeys] at this
      exact hc ▸ this
    unfold get_address
    rw [hnone]

/-- Witness for C8: with distinct ids "a" and "b", `get_address "a"`
recovers the first base through the equivalence, and an unused id maps to
`none`. -/
theorem c8_get_address_iff_witness :
    get_address (runTrace (MMIODeviceManager.new 0 0xd0000000 (5, 23), Cmdline.new 4096)
        [Op.reg envOk devOne "a", Op.reg envOk devOne "b"]).1.1 "a" = some 0xd0000000 ∧
    get_address (runTrace (MMIODeviceManager.new 0 0xd0000000 (5, 23), Cmdline.new 4096)
        [Op.reg envOk devOne "a", Op.reg envOk devOne "b"]).1.1 "zzz" = none := by
  have hreg2 : ∀ op ∈ ([Op.reg envOk devOne "a", Op.reg envOk devOne "b"] : List Op),
      ∃ env device id, op = Op.reg env device id := by
    intro op hop
    rcases List.mem_cons.mp hop with rfl | hop2
    · exact ⟨envOk, devOne, "a", rfl⟩
    · rcases List.mem_cons.mp hop2 with rfl | hop3
      · exact ⟨envOk, devOne, "b", rfl⟩
      · cases hop3
  have hok2 : ∀ o ∈ (runTrace (MMIODeviceManager.new 0 0xd0000000 (5, 23), Cmdline.new 4096)
      [Op.reg envOk devOne "a", Op.reg envOk devOne "b"]).2, ∃ x, o = Outcome.regOk x := by
    intro o ho
    have houts : (runTrace (MMIODeviceManager.new 0 0xd0000000 (5, 23), Cmdline.new 4096)
        [Op.reg envOk devOne "a", Op.reg envOk devOne "b"]).2 =
        [Outcome.regOk 0xd0000000, Outcome.regOk 0xd0001000] := by decide
    rw [houts] at ho
    rcases List.mem_cons.mp ho with rfl | ho2
    · exact ⟨_, rfl⟩
    · rcases List.mem_cons.mp ho2 with rfl | ho3
      · exact ⟨_, rfl⟩
      · cases ho3
  refine ⟨((c8_get_address_iff hreg2 hok2 (by decide)).1 "a" 0xd0000000).mpr
    ⟨⟨0, envOk, devOne, by decide, by decide⟩, by decide⟩,
    (c8_get_address_iff hreg2 hok2 (by decide)).2 "zzz" (by decide)⟩

/- ## Command-line token injectivity -/

/-- Splitting a character list at a separator absent from both left parts. -/
theorem colon_split : ∀ (l1 l2 r1 r2 : List Char), (∀ c ∈ l1, c ≠ ':') →
    (∀ c ∈ l2, c ≠ ':') → l1 ++ ':' :: r1 = l2 ++ ':' :: r2 → l1 = l2 ∧ r1 = r2 := by
  intro l1
  induction l1 with
  | nil =>
    intro l2 r1 r2 _ h2 h
    cases l2 with
    | nil =>
      simp only [List.nil_append] at h
      injection h with _ ht
      exact ⟨rfl, ht⟩
    | cons c cs =>
      simp only [List.nil_append, List.cons_append] at h
      injection h with hc _
      exact absurd hc.symm (h2 c (List.mem_cons_self c cs))
  | cons c cs ih =>
    intro l2 r1 r2 h1 h2 h
    cases l2 with
    | nil =>
      simp only [List.nil_append, List.cons_append] at h
      injection h with hc _
      exact absurd hc (h1 c (List.mem_cons_self c cs))
    | cons c2 cs2 =>
      simp only [List.cons_append] at h
      injection h with hc ht
      obtain ⟨hl, hr⟩ := ih cs2 r1 r2 (fun x hx => h1 x (List.mem_cons_of_mem c hx))
        (fun x hx => h2 x (List.mem_cons_of_mem c2 hx)) ht
      exact ⟨by rw [hc, hl], hr⟩

/-- The registration token rendered with its literal constant part. -/
theorem cmdTok_pretty (a i : Nat) :
    cmdTok a i = "virtio_mmio.device=4K@0x" ++ hexMin8 a ++ ":" ++ decStr i := by
  apply String.ext
  simp only [cmdTok, fragValue, String.data_append, List.append_assoc]
  rfl

/-- Distinct `(addr, irq)` pairs render to distinct registration tokens. -/
theorem cmdTok_inj {a i a2 i2 : Nat} (h : cmdTok a i = cmdTok a2 i2) :
    a = a2 ∧ i = i2 := by
  rw [cmdTok_pretty, cmdTok_pretty] at h
  have hd := congrArg String.data h
  simp only [String.data_append, List.append_assoc] at hd
  have hd2 := List.append_cancel_left hd
  simp only [List.singleton_append] at hd2
  obtain ⟨hx, hdec⟩ := colon_split (hexMin8 a).data (hexMin8 a2).data (decStr i).data
    (decStr i2).data (hexMin8_ne_colon a) (hexMin8_ne_colon a2) hd2
  exact ⟨hexMin8_inj (String.ext hx), decStr_inj (String.ext hdec)⟩

/- ## Trace invariant: establishment and preservation -/

/-- A negative overlap test places the intervals on disjoint sides. -/
theorem rangesOverlap_false {b1 l1 b2 l2 : Nat}
    (h : rangesOverlap b1 l1 b2 l2 = false) : b1 + l1 ≤ b2 ∨ b2 + l2 ≤ b1 := by
  simp only [rangesOverlap, Bool.and_eq_false_iff, decide_eq_false_iff_not, Nat.not_lt] at h
  rcases h with h | h
  · right; exact h
  · left; exact h

/-- Mutating a found device through its handle keeps every slot's
`(base, len)` footprint. -/
theorem busSetFirst_shape : ∀ (bus : List BusEntry) (addr : Nat) (d : MmioDevice),
    (busSetFirst bus addr d).map (fun e => (e.base, e.len)) =
      bus.map (fun e => (e.base, e.len)) := by
  intro bus addr d
  induction bus with
  | nil => rfl
  | cons e rest ih =>
    unfold busSetFirst
    split
    · simp
    · simp only [List.map_cons]
      rw [ih]

/-- `update_drive` never changes the bus footprints, the counters or the
registry. -/
theorem update_drive_frame (m : MMIODeviceManager) (addr ns : Nat) :
    busShape (update_drive m addr ns).2 = busShape m ∧
    (update_drive m addr ns).2.mmio_base = m.mmio_base ∧
    (update_drive m addr ns).2.irq = m.irq ∧
    (update_drive m addr ns).2.id_to_dev_info = m.id_to_dev_info := by
  unfold update_drive
  split
  · split
    · exact ⟨rfl, rfl, rfl, rfl⟩
    · refine ⟨?_, rfl, rfl, rfl⟩
      show busShape { m with bus := busSetFirst m.bus addr _ } = busShape m
      simp only [busShape]
      exact busSetFirst_shape m.bus addr _
  · exact ⟨rfl, rfl, rfl, rfl⟩

/-- The state reached by an update step. -/
theorem runStep_upd_state (s : MMIODeviceManager × Cmdline) (addr ns : Nat) :
    (runStep s (Op.upd addr ns)).1 = ((update_drive s.1 addr ns).2, s.2) := by
  simp only [runStep]
  rcases h : update_drive s.1 addr ns with ⟨r, m1⟩
  cases r <;> rfl

/-- The state reached by a registration step. -/
theorem runStep_reg_state (s : MMIODeviceManager × Cmdline) (env : Env)
    (device : VirtioDevice) (id : String) :
    (runStep s (Op.reg env device id)).1 =
      ((register_virtio_device env s.1 s.2 device id).2.1,
        (register_virtio_device env s.1 s.2 device id).2.2) := by
  simp only [runStep]
  rcases h : register_virtio_device env s.1 s.2 device id with ⟨r, m1, c1⟩
  cases r <;> rfl

/-- On the `Cmdline` error path the freshly inserted slot stays on the bus,
and its window was disjoint from every previously occupied one. -/
theorem register_cmdline_err_bus {env : Env} {m : MMIODeviceManager} {cmdline : Cmdline}
    {device : VirtioDevice} {id : String} {ce : CmdlineError} {m1 : MMIODeviceManager}
    {c1 : Cmdline}
    (h : register_virtio_device env m cmdline device id =
      (Except.error (Error.Cmdline ce), m1, c1)) :
    m1.bus = m.bus ++ [⟨m.mmio_base, MMIO_LEN, MmioDevice.new device⟩] ∧
    ∀ e ∈ m.bus, rangesOverlap e.base e.len m.mmio_base MMIO_LEN = false := by
  unfold register_virtio_device at h
  split at h
  · simp at h
  · split at h
    · simp at h
    · split at h
      · simp at h
      · split at h
        · simp at h
        · split at h
          · simp at h
          · rename_i bus1 hbus
            split at h
            · obtain ⟨hb1, _, hb3⟩ := busInsert_ok hbus
              injection h with h1 h2
              injection h2 with h2 h3
              subst h2
              exact ⟨by simpa using hb1, hb3⟩
            · simp at h

/-- Overlap tests against the whole bus, read off on the footprints. -/
theorem overlap_shape {m : MMIODeviceManager} {mb L : Nat}
    (hov : ∀ e ∈ m.bus, rangesOverlap e.base e.len mb L = false) :
    ∀ q ∈ busShape m, q.1 + q.2 ≤ mb ∨ mb + L ≤ q.1 := by
  intro q hq
  obtain ⟨e, he, rfl⟩ := List.mem_map.mp hq
  exact rangesOverlap_false (hov e he)

/-- Appending a fresh aligned window to a family of pairwise disjoint
aligned windows: disjointness and alignment persist, and the new base is
new. -/
theorem shape_extend {b0 mb : Nat} {sh : List (Nat × Nat)}
    (hdisj : sh.Pairwise pairDisj)
    (hlens : ∀ q ∈ sh, q.2 = MMIO_LEN ∧ q.1 % MMIO_LEN = b0 % MMIO_LEN)
    (hmb : mb % MMIO_LEN = b0 % MMIO_LEN)
    (hov : ∀ q ∈ sh, q.1 + q.2 ≤ mb ∨ mb + MMIO_LEN ≤ q.1) :
    (sh ++ [(mb, MMIO_LEN)]).Pairwise pairDisj ∧
    (∀ q ∈ sh ++ [(mb, MMIO_LEN)], q.2 = MMIO_LEN ∧ q.1 % MMIO_LEN = b0 % MMIO_LEN) ∧
    mb ∉ sh.map Prod.fst := by
  refine ⟨?_, ?_, ?_⟩
  · refine List.pairwise_append.mpr ⟨hdisj, List.pairwise_singleton _ _, ?_⟩
    intro q hq p hp
    have hp2 : p = (mb, MMIO_LEN) := List.mem_singleton.mp hp
    subst hp2
    exact hov q hq
  · intro q hq
    rcases List.mem_append.mp hq with h | h
    · exact hlens q h
    · have hq2 : q = (mb, MMIO_LEN) := List.mem_singleton.mp h
      subst hq2
      exact ⟨rfl, hmb⟩
  · intro hmem
    obtain ⟨q, hq, hq1⟩ := List.mem_map.mp hmem
    have h1 := (hlens q hq).1
    have hpos : (0 : Nat) < MMIO_LEN := by norm_num [MMIO_LEN]
    rcases hov q hq with h | h
    · rw [hq1, h1] at h
      omega
    · rw [hq1] at h
      omega

/-- Appending one slot to the bus, read off on the footprints. -/
theorem busShape_append {m1 m : MMIODeviceManager} {mb L : Nat} {d : MmioDevice}
    (h : m1.bus = m.bus ++ [⟨mb, L, d⟩]) :
    busShape m1 = busShape m ++ [(mb, L)] := by
  simp [busShape, h]

/-- The invariant only looks at footprints, counters, registry and tokens,
so it transfers along agreement of those projections. -/
theorem TraceInv_transfer {b0 : Nat} {m m2 : MMIODeviceManager} {c c2 : Cmdline}
    (hb : busShape m2 = busShape m) (hmb : m2.mmio_base = m.mmio_base)
    (hinfo : m2.id_to_dev_info = m.id_to_dev_info) (hc : c2.tokens = c.tokens)
    (h : TraceInv b0 (m, c)) : TraceInv b0 (m2, c2) := by
  obtain ⟨hdisj, hlens, hcur, pairs, htok, hmem, hnd, hreg⟩ := h
  refine ⟨?_, ?_, ?_, pairs, ?_, ?_, hnd, ?_⟩
  · show (busShape m2).Pairwise pairDisj
    rw [hb]; exact hdisj
  · show ∀ q ∈ busShape m2, q.2 = MMIO_LEN ∧ q.1 % MMIO_LEN = b0 % MMIO_LEN
    rw [hb]; exact hlens
  · show m2.mmio_base % MMIO_LEN = b0 % MMIO_LEN
    rw [hmb]; exact hcur
  · show c2.tokens = pairs.map (fun q => cmdTok q.1 q.2)
    rw [hc]; exact htok
  · show ∀ q ∈ pairs, q.1 ∈ (busShape m2).map Prod.fst
    rw [hb]; exact hmem
  · show ∀ p ∈ m2.id_to_dev_info, (p.2.addr, p.2.irq) ∈ pairs ∧ p.2.type_ = DeviceType.Virtio
    rw [hinfo]; exact hreg

/-- The invariant holds of a fresh manager and builder. -/
theorem TraceInv_init (gm b0 a b cap : Nat) :
    TraceInv b0 (MMIODeviceManager.new gm b0 (a, b), Cmdline.new cap) := by
  refine ⟨List.Pairwise.nil, ?_, rfl, [], rfl, ?_, List.nodup_nil, ?_⟩
  · intro q hq
    exact absurd hq (List.not_mem_nil q)
  · intro q hq
    exact absurd hq (List.not_mem_nil q)
  · intro p hp
    exact absurd hp (List.not_mem_nil p)

/-- Every single operation preserves the invariant. -/
theorem TraceInv_step {b0 : Nat} {s : MMIODeviceManager × Cmdline} (op : Op)
    (hs : TraceInv b0 s) : TraceInv b0 (runStep s op).1 := by
  cases op with
  | upd addr ns =>
    rw [runStep_upd_state]
    obtain ⟨hb, hmb, _, hinfo⟩ := update_drive_frame s.1 addr ns
    exact TraceInv_transfer hb hmb hinfo rfl hs
  | reg env device id =>
    rw [runStep_reg_state]
    rcases hr : register_virtio_device env s.1 s.2 device id with ⟨r, m1, c1⟩
    show TraceInv b0 (m1, c1)
    cases r with
    | error e =>
      obtain ⟨hc1, _, hmb2, _, _, hinfo2, _, hother⟩ := register_err_state hr
      by_cases hce : ∃ ce, e = Error.Cmdline ce
      · obtain ⟨ce, rfl⟩ := hce
        obtain ⟨hbus, hov⟩ := register_cmdline_err_bus hr
        obtain ⟨hP, hL, _⟩ := shape_extend hs.disj hs.lens hs.cur (overlap_shape hov)
        obtain ⟨pairs, htok, hmem, hnd, hreg⟩ := hs.toks
        refine ⟨?_, ?_, ?_, pairs, ?_, ?_, hnd, ?_⟩
        · show (busShape m1).Pairwise pairDisj
          rw [busShape_append hbus]; exact hP
        · show ∀ q ∈ busShape m1, q.2 = MMIO_LEN ∧ q.1 % MMIO_LEN = b0 % MMIO_LEN
          rw [busShape_append hbus]; exact hL
        · show m1.mmio_base % MMIO_LEN = b0 % MMIO_LEN
          rw [hmb2]; exact hs.cur
        · show c1.tokens = pairs.map (fun q => cmdTok q.1 q.2)
          rw [hc1]; exact htok
        · show ∀ q ∈ pairs, q.1 ∈ (busShape m1).map Prod.fst
          rw [busShape_append hbus, List.map_append]
          intro q hq
          exact List.mem_append_left _ (hmem q hq)
        · show ∀ p ∈ m1.id_to_dev_info, (p.2.addr, p.2.irq) ∈ pairs ∧
            p.2.type_ = DeviceType.Virtio
          rw [hinfo2]; exact hreg
      · have hm1 : m1 = s.1 := hother (fun ce hcontra => hce ⟨ce, hcontra⟩)
        rw [hm1, hc1]
        exact hs
    | ok x =>
      obtain ⟨_, hbus, _, hmb2, _, _, hinfo2, _, hctoks, _, hov⟩ := register_ok_state hr
      obtain ⟨hP, hL, hnotin⟩ := shape_extend hs.disj hs.lens hs.cur (overlap_shape hov)
      obtain ⟨pairs, htok, hmem, hnd, hreg⟩ := hs.toks
      refine ⟨?_, ?_, ?_, pairs ++ [(s.1.mmio_base, s.1.irq)], ?_, ?_, ?_, ?_⟩
      · show (busShape m1).Pairwise pairDisj
        rw [busShape_append hbus]; exact hP
      · show ∀ q ∈ busShape m1, q.2 = MMIO_LEN ∧ q.1 % MMIO_LEN = b0 % MMIO_LEN
        rw [busShape_append hbus]; exact hL
      · show m1.mmio_base % MMIO_LEN = b0 % MMIO_LEN
        rw [hmb2]
        have hdvd : MMIO_LEN ∣ U64MOD := ⟨4503599627370496, by norm_num [MMIO_LEN, U64MOD]⟩
        rw [Nat.mod_mod_of_dvd _ hdvd, Nat.add_mod_right]
        exact hs.cur
      · show c1.tokens =
          (pairs ++ [(s.1.mmio_base, s.1.irq)]).map (fun q => cmdTok q.1 q.2)
        rw [hctoks, htok, List.map_append]
        rfl
      · show ∀ q ∈ pairs ++ [(s.1.mmio_base, s.1.irq)],
          q.1 ∈ (busShape m1).map Prod.fst
        rw [busShape_append hbus, List.map_append]
        intro q hq
        rcases List.mem_append.mp hq with h | h
        · exact List.mem_append_left _ (hmem q h)
        · have hq2 : q = (s.1.mmio_base, s.1.irq) := List.mem_singleton.mp h
          subst hq2
          refine List.mem_append_right _ ?_
          simp
      · show ((pairs ++ [(s.1.mmio_base, s.1.irq)]).map Prod.fst).Nodup
        have hshape : (pairs ++ [(s.1.mmio_base, s.1.irq)]).map Prod.fst =
            pairs.map Prod.fst ++ [s.1.mmio_base] := by simp
        rw [hshape]
        refine List.nodup_append.mpr ⟨hnd, List.nodup_singleton _, ?_⟩
        intro x hx hx2
        have hxmb : x = s.1.mmio_base := List.mem_singleton.mp hx2
        subst hxmb
        obtain ⟨q, hq, hq1⟩ := List.mem_map.mp hx
        have hqbus := hmem q hq
        rw [hq1] at hqbus
        exact hnotin hqbus
      · show ∀ p ∈ m1.id_to_dev_info,
          (p.2.addr, p.2.irq) ∈ pairs ++ [(s.1.mmio_base, s.1.irq)] ∧
          p.2.type_ = DeviceType.Virtio
        rw [hinfo2]
        intro p hp
        simp only [infoInsert] at hp
        rcases List.mem_cons.mp hp with h | h
        · rw [h]
          refine ⟨List.mem_append_right _ ?_, rfl⟩
          simp
        · have hp2 : p ∈ s.1.id_to_dev_info := (List.mem_filter.mp h).1
          obtain ⟨h1, h2⟩ := hreg p hp2
          exact ⟨List.mem_append_left _ h1, h2⟩

/-- The invariant holds after any operation sequence. -/
theorem TraceInv_run {b0 : Nat} : ∀ (ops : List Op) (s : MMIODeviceManager × Cmdline),
    TraceInv b0 s → TraceInv b0 (runTrace s ops).1 := by
  intro ops
  induction ops with
  | nil => intro s hs; exact hs
  | cons op rest ih =>
    intro s hs
    rw [runTrace_cons]
    exact ih _ (TraceInv_step op hs)

/-- C9: after any sequence of manager operations on a fresh manager, any
two bus slots occupy disjoint `[addr, addr + len)` intervals, and every
slot has `len = 4096` and a base congruent to the manager's `mmio_base`
modulo 4096. -/
theorem c9_bus_geometry (gm b0 a b cap : Nat) (ops : List Op) :
    (runTrace (MMIODeviceManager.new gm b0 (a, b), Cmdline.new cap) ops).1.1.bus.Pairwise
      (fun e1 e2 => ∀ x : Nat, ¬ (e1.base ≤ x ∧ x < e1.base + e1.len ∧
        e2.base ≤ x ∧ x < e2.base + e2.len)) ∧
    ∀ e ∈ (runTrace (MMIODeviceManager.new gm b0 (a, b), Cmdline.new cap) ops).1.1.bus,
      e.len = 4096 ∧
      e.base % 4096 =
        (runTrace (MMIODeviceManager.new gm b0 (a, b),
          Cmdline.new cap) ops).1.1.mmio_base % 4096 := by
  obtain ⟨hdisj, hlens, hcur, _⟩ :=
    TraceInv_run ops (MMIODeviceManager.new gm b0 (a, b), Cmdline.new cap)
      (TraceInv_init gm b0 a b cap)
  constructor
  · have hdisj2 : ((runTrace (MMIODeviceManager.new gm b0 (a, b),
        Cmdline.new cap) ops).1.1.bus.map (fun e => (e.base, e.len))).Pairwise pairDisj :=
      hdisj
    refine (List.pairwise_map.mp hdisj2).imp ?_
    intro e1 e2 h x hx
    have h2 : e1.base + e1.len ≤ e2.base ∨ e2.base + e2.len ≤ e1.base := h
    rcases h2 with h2 | h2 <;> omega
  · intro e he
    have hm : ((e.base, e.len) : Nat × Nat) ∈
        busShape (runTrace (MMIODeviceManager.new gm b0 (a, b), Cmdline.new cap) ops).1.1 :=
      List.mem_map_of_mem _ he
    obtain ⟨h1, h2⟩ := hlens _ hm
    have h1b : e.len = 4096 := h1
    have h2b : e.base % 4096 = b0 % 4096 := h2
    have h3 : (runTrace (MMIODeviceManager.new gm b0 (a, b),
        Cmdline.new cap) ops).1.1.mmio_base % 4096 = b0 % 4096 := hcur
    rw [h3]
    exact ⟨h1b, h2b⟩

/-- C9 witness: after one registration on the scenario-1 manager, the
single bus slot is 4096 bytes long and its base keeps the alignment of the
allocation counter. -/
theorem c9_bus_geometry_witness :
    (⟨0xd0000000, MMIO_LEN, MmioDevice.new devOne⟩ : BusEntry).len = 4096 ∧
    (⟨0xd0000000, MMIO_LEN, MmioDevice.new devOne⟩ : BusEntry).base % 4096 =
      (runTrace (MMIODeviceManager.new 0 0xd0000000 (5, 23), Cmdline.new 1000)
        [Op.reg envOk devOne "a"]).1.1.mmio_base % 4096 :=
  (c9_bus_geometry 0 0xd0000000 5 23 1000 [Op.reg envOk devOne "a"]).2
    ⟨0xd0000000, MMIO_LEN, MmioDevice.new devOne⟩ (by decide)

/-- C5: after any sequence of manager operations on a fresh manager and
builder, every registry record is a virtio device and the builder holds
exactly one fragment `virtio_mmio.device=4K@0x<addr>:<irq>` for its
address (8-digit zero-padded lowercase hex) and IRQ (decimal). -/
theorem c5_cmdline_fragment_unique (gm b0 a b cap : Nat) (ops : List Op) :
    ∀ p ∈ (runTrace (MMIODeviceManager.new gm b0 (a, b),
        Cmdline.new cap) ops).1.1.id_to_dev_info,
      p.2.type_ = DeviceType.Virtio ∧
      (runTrace (MMIODeviceManager.new gm b0 (a, b), Cmdline.new cap) ops).1.2.tokens.count
        ("virtio_mmio.device=4K@0x" ++ hexMin8 p.2.addr ++ ":" ++ decStr p.2.irq) = 1 := by
  intro p hp
  obtain ⟨_, _, _, pairs, htok, hmem, hnd, hreg⟩ :=
    TraceInv_run ops (MMIODeviceManager.new gm b0 (a, b), Cmdline.new cap)
      (TraceInv_init gm b0 a b cap)
  obtain ⟨hpair, htype⟩ := hreg p hp
  refine ⟨htype, ?_⟩
  rw [← cmdTok_pretty, htok]
  have hf : Function.Injective (fun q : Nat × Nat => cmdTok q.1 q.2) := by
    intro q1 q2 hq
    obtain ⟨h1, h2⟩ := cmdTok_inj hq
    exact Prod.ext h1 h2
  have hmm : cmdTok p.2.addr p.2.irq ∈ pairs.map (fun q => cmdTok q.1 q.2) :=
    List.mem_map.mpr ⟨(p.2.addr, p.2.irq), hpair, rfl⟩
  have hmapnd : (pairs.map (fun q => cmdTok q.1 q.2)).Nodup :=
    (hnd.of_map Prod.fst).map hf
  have h1 : 0 < (pairs.map (fun q => cmdTok q.1 q.2)).count (cmdTok p.2.addr p.2.irq) :=
    List.count_pos_iff.mpr hmm
  have h2 : (pairs.map (fun q => cmdTok q.1 q.2)).count (cmdTok p.2.addr p.2.irq) ≤ 1 :=
    List.nodup_iff_count_le_one.mp hmapnd (cmdTok p.2.addr p.2.irq)
  omega

/-- C5 witness: after one registration on the scenario-1 manager, the
record registered under `"a"` is virtio and the builder holds exactly one
fragment `virtio_mmio.device=4K@0xd0000000:5`. -/
theorem c5_cmdline_fragment_unique_witness :
    DeviceType.Virtio = DeviceType.Virtio ∧
    (runTrace (MMIODeviceManager.new 0 0xd0000000 (5, 23), Cmdline.new 1000)
      [Op.reg envOk devOne "a"]).1.2.tokens.count
      ("virtio_mmio.device=4K@0x" ++ hexMin8 0xd0000000 ++ ":" ++ decStr 5) = 1 :=
  c5_cmdline_fragment_unique 0 0xd0000000 5 23 1000 [Op.reg envOk devOne "a"]
    ("a", ⟨0xd0000000, 5, MMIO_LEN, DeviceType.Virtio⟩) (by decide)

end MmioSpec
